import Mathlib

/-!
Shallow embedding of the event-driven document index synchronizer of the
laomst/lmrc repository (src/typora/scripts/index_typora_markdowns.py and
src/typora/scripts/watch_workspace.py), together with proofs settling the
claims of the natural-language specification against it.

Strings are modelled as lists of characters.  Filesystem paths handed to the
operations are assumed to already be absolute and normalized, so that
os.path.abspath is the identity on them; os.sep is the forward slash.
-/

abbrev Str := List Char

def str (s : String) : Str := s.data

/-- The whitespace characters stripped by Python's str.strip(). -/
def isPySpace (c : Char) : Bool :=
  c = ' ' || c = '\t' || c = '\n' || c = '\r' || c = '\x0b' || c = '\x0c'

/-- Left part of Python str.strip(). -/
def pyStripL (s : Str) : Str := s.dropWhile isPySpace

/-- Right part of Python str.strip(). -/
def pyStripR (s : Str) : Str := (s.reverse.dropWhile isPySpace).reverse

/-- Python str.strip(). -/
def pyStrip (s : Str) : Str := pyStripR (pyStripL s)

/-- Python s.lstrip('\n'). -/
def pyLStripNl (s : Str) : Str := s.dropWhile (fun c => c = '\n')

/-- Python s.find(pat): index of the first occurrence of the substring pat
in s, none when absent (the Python function returns -1 there). -/
def pyFind (pat : Str) : Str → Option Nat
  | [] => if pat.isPrefixOf ([] : Str) then some 0 else none
  | c :: cs =>
    if pat.isPrefixOf (c :: cs) then some 0
    else (pyFind pat cs).map (· + 1)

/-- Python s.split(sep) for a one-character separator. -/
def splitChar (sep : Char) : Str → List Str
  | [] => [[]]
  | c :: cs =>
    match splitChar sep cs with
    | [] => [[]]
    | l :: ls => if c = sep then [] :: l :: ls else (c :: l) :: ls

/-- Python '\n'.split of a string. -/
def splitNl (s : Str) : List Str := splitChar '\n' s

/-- Python '\n'.join(lines). -/
def joinNl : List Str → Str
  | [] => []
  | [l] => l
  | l :: l' :: ls => l ++ '\n' :: joinNl (l' :: ls)

/-- Python line.split(':', 1): the text before the first colon and the text
after it.  Only used on lines that do contain a colon. -/
def splitFirstColon : Str → Str × Str
  | [] => ([], [])
  | c :: cs =>
    if c = ':' then ([], cs)
    else
      let p := splitFirstColon cs
      (c :: p.1, p.2)

/-- Python dict lookup d.get(k): the value stored at the first (unique)
occurrence of the key. -/
def dictGet {κ ν : Type} [DecidableEq κ] : List (κ × ν) → κ → Option ν
  | [], _ => none
  | (k', v) :: d, k => if k' = k then some v else dictGet d k

/-- Python dict assignment d[k] = v: updates the value in place when the key
is present (keeping its position), appends the pair otherwise. -/
def dictInsert {κ ν : Type} [DecidableEq κ] : List (κ × ν) → κ → ν → List (κ × ν)
  | [], k, v => [(k, v)]
  | (k', v') :: d, k, v =>
    if k' = k then (k', v) :: d else (k', v') :: dictInsert d k v

/-! ## Header codec (index_typora_markdowns.py) -/

/-- The front matter marker line. -/
def MARKER : Str := str "---"

/-- _has_front_matter: content.startswith('---'). -/
def has_front_matter (content : Str) : Bool := MARKER.isPrefixOf content

/-- _get_existing_front_matter: looks for the second '---' (as '\n---' in
content[4:]); returns the front matter together with the remaining content
(with leading newlines stripped), or none when the header is unterminated. -/
def get_existing_front_matter (content : Str) : Option (Str × Str) :=
  if ¬ MARKER.isPrefixOf content then none
  else
    let rest := content.drop 4
    match pyFind (str "\n---") rest with
    | none => none
    | some i =>
      let front_matter_end := 4 + i + 4
      some (content.take front_matter_end, pyLStripNl (content.drop front_matter_end))

/-- _parse_front_matter: split into lines, drop the two marker lines, keep
the stripped lines containing a colon, split each at its first colon and
strip key and value. -/
def parse_front_matter (front_matter : Str) : List (Str × Str) :=
  let lines := splitNl front_matter
  ((lines.drop 1).dropLast).foldl
    (fun fields line =>
      let l := pyStrip line
      if l ≠ [] ∧ ':' ∈ l then
        let kv := splitFirstColon l
        dictInsert fields (pyStrip kv.1) (pyStrip kv.2)
      else fields)
    []

/-- _build_front_matter: marker, one 'key: value' line per field in order,
closing marker, joined by newlines. -/
def build_front_matter (fields : List (Str × Str)) : Str :=
  joinNl (MARKER :: (fields.map (fun kv => kv.1 ++ ':' :: ' ' :: kv.2) ++ [MARKER]))

/-- _extract_serial_from_front_matter: the 'serial' field when non-empty
after stripping. -/
def extract_serial_from_front_matter (front_matter : Str) : Option Str :=
  let serial := (dictGet (parse_front_matter front_matter) (str "serial")).getD []
  if serial ≠ [] ∧ pyStrip serial ≠ [] then some serial else none

/-- _create_front_matter: a fresh header holding serial, typora-root-url and
typora-copy-images-to. -/
def create_front_matter (serial relative_path : Str) : Str :=
  let url_pre := serial.take 1
  let typora_copy_images_to :=
    if relative_path ≠ [] then relative_path ++ str ".assets/" ++ url_pre ++ '/' :: serial
    else str ".assets/" ++ url_pre ++ '/' :: serial
  build_front_matter
    [(str "serial", serial),
     (str "typora-root-url", relative_path),
     (str "typora-copy-images-to", typora_copy_images_to)]

/-! ## Path computations (index_typora_markdowns.py) -/

/-- Python p.rfind(c) for a single character: index of the last occurrence. -/
def pyRFindChar (c : Char) : Str → Option Nat
  | [] => none
  | x :: xs =>
    match pyRFindChar c xs with
    | some i => some (i + 1)
    | none => if x = c then some 0 else none

/-- Python s.rstrip('/'). -/
def rstripSlash (s : Str) : Str := (s.reverse.dropWhile (fun c => c = '/')).reverse

/-- posixpath.dirname. -/
def dirname (p : Str) : Str :=
  let i := match pyRFindChar '/' p with | some j => j + 1 | none => 0
  let head := p.take i
  if head ≠ [] ∧ ¬ head.all (fun c => c = '/') then rstripSlash head else head

/-- _calculate_relative_path: the '../' climb string for the directory depth
of the file below the workspace; ValueError (modelled as error) when the file
path does not start with the workspace path. -/
def calculate_relative_path (workspace_path file_path : Str) : Except Unit Str :=
  if ¬ workspace_path.isPrefixOf file_path then .error ()
  else
    let relative := (file_path.drop workspace_path.length).dropWhile (fun c => c = '/')
    let dir_path := dirname relative
    if dir_path = str "." ∨ dir_path = [] then .ok []
    else
      let depth := ((splitChar '/' dir_path).filter (fun part => part ≠ [])).length
      .ok (List.flatten (List.replicate depth (str "../")))

/-- _calculate_file_relative_path: the file path relative to the workspace,
forced to begin with a slash; ValueError when the file path does not start
with the workspace path. -/
def calculate_file_relative_path (workspace_path file_path : Str) : Except Unit Str :=
  if ¬ workspace_path.isPrefixOf file_path then .error ()
  else
    let relative := file_path.drop workspace_path.length
    .ok (if (str "/").isPrefixOf relative then relative else '/' :: relative)

/-- posixpath.join of two components. -/
def os_path_join (a b : Str) : Str :=
  if (str "/").isPrefixOf b then b
  else if a = [] then b
  else if a.getLast? = some '/' then a ++ b
  else a ++ '/' :: b

/-- The directory _remove_assets_dir deletes:
os.path.join(workspace_path, '.assets', serial[:1], serial). -/
def assets_dir_path (workspace_path serial : Str) : Str :=
  os_path_join (os_path_join (os_path_join workspace_path (str ".assets")) (serial.take 1)) serial

/-! ## System state and the indexing operations

The mutable world the operations touch: the text files (path to content),
the persisted index (serial to slash-rooted relative path, the JSON object
in .index/path_index.json) and the set of existing auxiliary asset
directories.  Whether the workspace root is a directory is passed as a
boolean, since the workspace root itself is outside the files map.  The
serial that _generate_unique_serial would return is passed as the argument
fresh. -/

inductive PyErr
  | valueError
  | fileNotFound
deriving DecidableEq, Repr

structure Sys where
  files : List (Str × Str)
  index : List (Str × Str)
  assets : List Str
deriving DecidableEq, Repr

/-- _update_index: store serial -> relative path and persist. -/
def update_index (workspace_path serial file_path : Str) (S : Sys) : Except PyErr Sys :=
  match calculate_file_relative_path workspace_path file_path with
  | .error _ => .error .valueError
  | .ok local_path => .ok { S with index := dictInsert S.index serial local_path }

/-- _add_front_matter_to_file: add or update the front matter of one file and
upsert the index; returns whether the file was modified. -/
def add_front_matter_to_file (file_path workspace_path : Str) (S : Sys) (fresh : Str) :
    Except PyErr (Sys × Bool) :=
  match dictGet S.files file_path with
  | none => .error .fileNotFound
  | some content =>
    match calculate_relative_path workspace_path file_path with
    | .error _ => .error .valueError
    | .ok relative_path =>
      if has_front_matter content then
        match get_existing_front_matter content with
        | none => .ok (S, false)
        | some fmrem =>
          let fields := parse_front_matter fmrem.1
          match extract_serial_from_front_matter fmrem.1 with
          | some existing_serial =>
            let existing_url := dictGet fields (str "typora-root-url")
            let existing_copy_url := dictGet fields (str "typora-copy-images-to")
            let new_typora_root_url := relative_path
            let url_pre := existing_serial.take 1
            let new_typora_copy_images_to :=
              if relative_path ≠ [] then
                relative_path ++ str ".assets/" ++ url_pre ++ '/' :: existing_serial
              else str ".assets/" ++ url_pre ++ '/' :: existing_serial
            if existing_url = some new_typora_root_url ∧
                existing_copy_url = some new_typora_copy_images_to then
              match update_index workspace_path existing_serial file_path S with
              | .error e => .error e
              | .ok S' => .ok (S', false)
            else
              let fields2 :=
                dictInsert (dictInsert fields (str "typora-root-url") new_typora_root_url)
                  (str "typora-copy-images-to") new_typora_copy_images_to
              let new_content := build_front_matter fields2 ++ '\n' :: '\n' :: fmrem.2
              let S1 : Sys := { S with files := dictInsert S.files file_path new_content }
              match update_index workspace_path existing_serial file_path S1 with
              | .error e => .error e
              | .ok S2 => .ok (S2, true)
          | none =>
            let serial := fresh
            let fields1 := dictInsert fields (str "serial") serial
            let typora_root_url := relative_path
            let url_pre := serial.take 1
            let typora_copy_images_to :=
              if relative_path ≠ [] then
                relative_path ++ str ".assets/" ++ url_pre ++ '/' :: serial
              else str ".assets/" ++ url_pre ++ '/' :: serial
            let fields2 :=
              dictInsert (dictInsert fields1 (str "typora-root-url") typora_root_url)
                (str "typora-copy-images-to") typora_copy_images_to
            let new_content := build_front_matter fields2 ++ '\n' :: '\n' :: fmrem.2
            let S1 : Sys := { S with files := dictInsert S.files file_path new_content }
            match update_index workspace_path serial file_path S1 with
            | .error e => .error e
            | .ok S2 => .ok (S2, true)
      else
        let new_front_matter := create_front_matter fresh relative_path
        let new_content := new_front_matter ++ '\n' :: '\n' :: content
        let S1 : Sys := { S with files := dictInsert S.files file_path new_content }
        match update_index workspace_path fresh file_path S1 with
        | .error e => .error e
        | .ok S2 => .ok (S2, true)

/-- The containment check of index_or_update_file: the file equals the
workspace or lies strictly below it (both rstripped of trailing slashes). -/
def inside_workspace (workspace_path file_path : Str) : Bool :=
  let nf := rstripSlash file_path
  let nw := rstripSlash workspace_path
  nf == nw || (nw ++ str "/").isPrefixOf nf

/-- index_or_update_file: the public API entry for Created events.  Validates
the workspace, the file's existence, workspace containment and the .md
extension, then delegates to add_front_matter_to_file. -/
def index_or_update_file (workspace_path file_path : Str) (wsIsDir : Bool) (S : Sys)
    (fresh : Str) : Except PyErr (Sys × Bool) :=
  if ¬ wsIsDir then .error .valueError
  else if (dictGet S.files file_path).isNone then .error .fileNotFound
  else if ¬ inside_workspace workspace_path file_path then .error .valueError
  else if ¬ (str ".md").isSuffixOf file_path then .error .valueError
  else add_front_matter_to_file file_path workspace_path S fresh

/-- remove_from_index: drop every index entry whose stored path equals the
file's relative path, deleting each removed serial's assets directory first;
a path failing the workspace check returns false instead of failing. -/
def remove_from_index (workspace_path file_path : Str) (wsIsDir : Bool) (S : Sys) :
    Except PyErr (Sys × Bool) :=
  if ¬ wsIsDir then .error .valueError
  else
    match calculate_file_relative_path workspace_path file_path with
    | .error _ => .ok (S, false)
    | .ok relative_path =>
      let to_delete := (S.index.filter (fun kv => kv.2 = relative_path)).map Prod.fst
      let removed_dirs := to_delete.map (assets_dir_path workspace_path)
      let S' : Sys :=
        { S with
          index := S.index.filter (fun kv => kv.1 ∉ to_delete),
          assets := S.assets.filter (fun d => d ∉ removed_dirs) }
      .ok (S', !to_delete.isEmpty)

/-! ## The watcher (watch_workspace.py) -/

def DEBOUNCE_SECONDS : ℚ := 10

/-- DebounceManager: window length and the (event kind, path) to
last-processed-timestamp map.  Timestamps are modelled as rationals. -/
structure DebounceManager where
  debounce_seconds : ℚ
  last_processed : List ((Str × Str) × ℚ)
deriving DecidableEq

/-- DebounceManager.should_process at an explicit current time. -/
def should_process (m : DebounceManager) (event_type file_path : Str) (current_time : ℚ) :
    Bool × DebounceManager :=
  let key := (event_type, file_path)
  let last_time := (dictGet m.last_processed key).getD 0
  if current_time - last_time < m.debounce_seconds then (false, m)
  else (true, { m with last_processed := dictInsert m.last_processed key current_time })

/-- DebounceManager.clear for one path: drop the records of every event kind
for that path. -/
def debounce_clear (m : DebounceManager) (file_path : Str) : DebounceManager :=
  { m with last_processed := m.last_processed.filter (fun kv => kv.1.2 ≠ file_path) }

/-- os.path.basename for slash-separated paths. -/
def basename (p : Str) : Str :=
  p.foldl (fun acc c => if c = '/' then [] else acc ++ [c]) []

/-- MarkdownEventHandler.should_skip_file: Untitled files and conflict
files. -/
def should_skip_file (path : Str) : Bool :=
  let filename := basename path
  if (str "Untitled").isPrefixOf filename then true
  else if (pyFind (str "冲突文件") filename).isSome then true
  else false

/-- The event handler's own mutable state: the debounce manager and the
recently-moved destination map. -/
structure Handler where
  debounce : DebounceManager
  recently_moved : List (Str × ℚ)
deriving DecidableEq

/-- MarkdownEventHandler.handle_moved: filter the destination, remove the
source from the index, clear the source's debounce records, remember the
destination as recently moved, then run index_or_update_file on the
destination.  Exceptions of the two index operations are caught and logged,
leaving the state already produced in place. -/
def handle_moved (workspace_path src_path dest_path : Str) (wsIsDir : Bool) (S : Sys)
    (H : Handler) (now : ℚ) (fresh : Str) : Sys × Handler :=
  if (str "~.md").isSuffixOf (basename dest_path) then (S, H)
  else if ¬ (str ".md").isSuffixOf dest_path then (S, H)
  else if should_skip_file dest_path then (S, H)
  else
    match remove_from_index workspace_path src_path wsIsDir S with
    | .error _ => (S, H)
    | .ok Sr =>
      let H1 : Handler :=
        { debounce := debounce_clear H.debounce src_path,
          recently_moved := dictInsert H.recently_moved dest_path now }
      match index_or_update_file workspace_path dest_path wsIsDir Sr.1 fresh with
      | .error _ => (Sr.1, H1)
      | .ok Su => (Su.1, H1)

/-! ## The Integrity Verifier -/

/-- The workspace document tree as the verifier sees it: each document path
paired with the serial its header carries. -/
structure Workspace where
  docs : List (Str × Str)
deriving DecidableEq

/-- The header serial of the document at a path, none when no document (or no
header) is there. -/
def doc_serial_at (w : Workspace) (p : Str) : Option Str := dictGet w.docs p

/-- The linear scan for a document whose header serial equals s. -/
def find_doc_by_serial (w : Workspace) (s : Str) : Option Str :=
  (w.docs.find? (fun d => d.2 = s)).map Prod.fst

/-- Modelled from the spec: one entry's treatment by the Integrity Verifier of
spec section 4.6, which has no implementation under src/ (only the event path
is implemented).  If the recorded path exists: keep the entry when the stored
serial matches the key, otherwise re-key it under the document's actual
serial.  If the path does not exist: search the tree for a document carrying
the missing serial, updating the entry's path when found and deleting the
entry when not. -/
def verifier_step (w : Workspace) (acc : List (Str × Str)) (e : Str × Str) :
    List (Str × Str) :=
  match doc_serial_at w e.2 with
  | some s => if s = e.1 then dictInsert acc e.1 e.2 else dictInsert acc s e.2
  | none =>
    match find_doc_by_serial w e.1 with
    | some p => dictInsert acc e.1 p
    | none => acc

/-- Modelled from the spec: one full Integrity Verifier pass over the index. -/
def verifier_pass (w : Workspace) (index : List (Str × Str)) : List (Str × Str) :=
  index.foldl (verifier_step w) []

/-! ## Shape predicates used in the theorem statements -/

/-- The header fields the indexer manages itself. -/
def recognized_keys : List Str :=
  [str "serial", str "typora-root-url", str "typora-copy-images-to"]

/-- A field as parse_front_matter produces it: key and value stripped and
newline-free, and the key free of colons. -/
def cleanField (kv : Str × Str) : Prop :=
  pyStrip kv.1 = kv.1 ∧ pyStrip kv.2 = kv.2 ∧ ':' ∉ kv.1 ∧ '\n' ∉ kv.1 ∧ '\n' ∉ kv.2

def cleanFields (d : List (Str × Str)) : Prop := ∀ kv ∈ d, cleanField kv

/-- No key of the field list begins with the marker, so that the rebuilt
header is split again exactly at its closing marker. -/
def markerFreeKeys (d : List (Str × Str)) : Prop := ∀ kv ∈ d, ¬ MARKER.isPrefixOf kv.1

/-- A serial as the generator produces it, in the ways the text manipulation
depends on: stripped, non-empty, newline-free, not marker-led. -/
def cleanSerial (s : Str) : Prop :=
  pyStrip s = s ∧ s ≠ [] ∧ '\n' ∉ s ∧ ¬ MARKER.isPrefixOf s

/-! # Theorems -/

/-! ### Dictionary lemmas -/

theorem dictGet_cons_self {κ ν : Type} [DecidableEq κ] (d : List (κ × ν)) (a : κ) (b : ν) :
    dictGet ((a, b) :: d) a = some b := by
  simp [dictGet]

theorem dictGet_cons_ne {κ ν : Type} [DecidableEq κ] (d : List (κ × ν)) (a k : κ) (b : ν)
    (h : a ≠ k) : dictGet ((a, b) :: d) k = dictGet d k := by
  simp [dictGet, h]

theorem dictInsert_cons_self {κ ν : Type} [DecidableEq κ] (d : List (κ × ν)) (a : κ) (b v : ν) :
    dictInsert ((a, b) :: d) a v = (a, v) :: d := by
  simp [dictInsert]

theorem dictInsert_cons_ne {κ ν : Type} [DecidableEq κ] (d : List (κ × ν)) (a k : κ) (b v : ν)
    (h : a ≠ k) : dictInsert ((a, b) :: d) k v = (a, b) :: dictInsert d k v := by
  simp [dictInsert, h]

theorem dictGet_insert_self {κ ν : Type} [DecidableEq κ] (d : List (κ × ν)) (k : κ) (v : ν) :
    dictGet (dictInsert d k v) k = some v := by
  induction d with
  | nil => simp [dictInsert, dictGet]
  | cons kv d ih =>
    obtain ⟨a, b⟩ := kv
    by_cases h : a = k
    · subst h
      rw [dictInsert_cons_self, dictGet_cons_self]
    · rw [dictInsert_cons_ne _ _ _ _ _ h, dictGet_cons_ne _ _ _ _ h, ih]

theorem dictGet_insert_ne {κ ν : Type} [DecidableEq κ] (d : List (κ × ν)) (k k' : κ) (v : ν)
    (h : k' ≠ k) : dictGet (dictInsert d k' v) k = dictGet d k := by
  induction d with
  | nil => simp [dictInsert, dictGet, h]
  | cons kv d ih =>
    obtain ⟨a, b⟩ := kv
    by_cases ha : a = k'
    · subst ha
      rw [dictInsert_cons_self, dictGet_cons_ne _ _ _ _ h, dictGet_cons_ne _ _ _ _ h]
    · by_cases hak : a = k
      · subst hak
        rw [dictInsert_cons_ne _ _ _ _ _ ha, dictGet_cons_self, dictGet_cons_self]
      · rw [dictInsert_cons_ne _ _ _ _ _ ha, dictGet_cons_ne _ _ _ _ hak,
          dictGet_cons_ne _ _ _ _ hak, ih]

theorem dictGet_eq_none_iff {κ ν : Type} [DecidableEq κ] (d : List (κ × ν)) (k : κ) :
    dictGet d k = none ↔ k ∉ d.map Prod.fst := by
  induction d with
  | nil => simp [dictGet]
  | cons kv d ih =>
    obtain ⟨a, b⟩ := kv
    by_cases h : a = k
    · subst h
      simp [dictGet_cons_self]
    · rw [dictGet_cons_ne _ _ _ _ h, ih]
      simp [Ne.symm h]

theorem dictGet_mem {κ ν : Type} [DecidableEq κ] {d : List (κ × ν)} {k : κ} {v : ν}
    (h : dictGet d k = some v) : (k, v) ∈ d := by
  induction d with
  | nil => simp [dictGet] at h
  | cons kv d ih =>
    obtain ⟨a, b⟩ := kv
    by_cases ha : a = k
    · subst ha
      rw [dictGet_cons_self] at h
      obtain rfl := Option.some.inj h
      exact List.mem_cons_self _ _
    · rw [dictGet_cons_ne _ _ _ _ ha] at h
      exact List.mem_cons_of_mem _ (ih h)

theorem dictGet_of_mem {κ ν : Type} [DecidableEq κ] {d : List (κ × ν)} {k : κ} {v : ν}
    (hnd : (d.map Prod.fst).Nodup) (h : (k, v) ∈ d) : dictGet d k = some v := by
  induction d with
  | nil => simp at h
  | cons kv d ih =>
    obtain ⟨a, b⟩ := kv
    simp only [List.map_cons, List.nodup_cons] at hnd
    rcases List.mem_cons.mp h with h1 | h1
    · have hk : k = a := congrArg Prod.fst h1
      have hv : v = b := congrArg Prod.snd h1
      subst hk
      subst hv
      exact dictGet_cons_self _ _ _
    · have hak : a ≠ k := by
        rintro rfl
        exact hnd.1 (List.mem_map.mpr ⟨(a, v), h1, rfl⟩)
      rw [dictGet_cons_ne _ _ _ _ hak]
      exact ih hnd.2 h1

theorem dictInsert_of_not_mem {κ ν : Type} [DecidableEq κ] {d : List (κ × ν)} {k : κ} (v : ν)
    (h : k ∉ d.map Prod.fst) : dictInsert d k v = d ++ [(k, v)] := by
  induction d with
  | nil => simp [dictInsert]
  | cons kv d ih =>
    obtain ⟨a, b⟩ := kv
    simp only [List.map_cons, List.mem_cons, not_or] at h
    rw [dictInsert_cons_ne _ _ _ _ _ (Ne.symm h.1), ih h.2]
    simp

theorem mem_keys_dictInsert {κ ν : Type} [DecidableEq κ] (d : List (κ × ν)) (k x : κ) (v : ν) :
    x ∈ (dictInsert d k v).map Prod.fst ↔ x ∈ d.map Prod.fst ∨ x = k := by
  induction d with
  | nil => simp [dictInsert]
  | cons kv d ih =>
    obtain ⟨a, b⟩ := kv
    by_cases h : a = k
    · subst h
      rw [dictInsert_cons_self]
      by_cases hx : x = a <;> simp [hx]
    · rw [dictInsert_cons_ne _ _ _ _ _ h]
      simp only [List.map_cons, List.mem_cons, ih]
      tauto

theorem nodup_keys_dictInsert {κ ν : Type} [DecidableEq κ] {d : List (κ × ν)} (k : κ) (v : ν)
    (hnd : (d.map Prod.fst).Nodup) : ((dictInsert d k v).map Prod.fst).Nodup := by
  induction d with
  | nil => simp [dictInsert]
  | cons kv d ih =>
    obtain ⟨a, b⟩ := kv
    simp only [List.map_cons, List.nodup_cons] at hnd
    by_cases h : a = k
    · subst h
      rw [dictInsert_cons_self]
      simp only [List.map_cons, List.nodup_cons]
      exact ⟨hnd.1, hnd.2⟩
    · rw [dictInsert_cons_ne _ _ _ _ _ h]
      simp only [List.map_cons, List.nodup_cons]
      refine ⟨fun hmem => ?_, ih hnd.2⟩
      rcases (mem_keys_dictInsert d k a v).mp hmem with h1 | h1
      · exact hnd.1 h1
      · exact h h1

theorem dictInsert_eq_self {κ ν : Type} [DecidableEq κ] {d : List (κ × ν)} {k : κ} {v : ν}
    (hnd : (d.map Prod.fst).Nodup) (h : (k, v) ∈ d) : dictInsert d k v = d := by
  induction d with
  | nil => simp at h
  | cons kv d ih =>
    obtain ⟨a, b⟩ := kv
    simp only [List.map_cons, List.nodup_cons] at hnd
    rcases List.mem_cons.mp h with h1 | h1
    · have hk : k = a := congrArg Prod.fst h1
      have hv : v = b := congrArg Prod.snd h1
      subst hk
      subst hv
      exact dictInsert_cons_self _ _ _ _
    · have hak : a ≠ k := by
        rintro rfl
        exact hnd.1 (List.mem_map.mpr ⟨(a, v), h1, rfl⟩)
      rw [dictInsert_cons_ne _ _ _ _ _ hak, ih hnd.2 h1]

theorem foldl_dictInsert_pairs {κ ν : Type} [DecidableEq κ] :
    ∀ (d acc : List (κ × ν)), (d.map Prod.fst).Nodup →
      (∀ x ∈ d.map Prod.fst, x ∉ acc.map Prod.fst) →
      d.foldl (fun a kv => dictInsert a kv.1 kv.2) acc = acc ++ d := by
  intro d
  induction d with
  | nil => simp
  | cons kv d ih =>
    intro acc hnd hdisj
    obtain ⟨a, b⟩ := kv
    simp only [List.map_cons, List.nodup_cons] at hnd
    have ha : a ∉ acc.map Prod.fst := hdisj a (by simp)
    simp only [List.foldl_cons]
    rw [dictInsert_of_not_mem b ha, ih (acc ++ [(a, b)]) hnd.2 ?_]
    · simp
    · intro x hx
      simp only [List.map_append, List.mem_append, List.map_cons, List.map_nil,
        List.mem_singleton, not_or]
      refine ⟨hdisj x (by simp [hx]), fun hxa => ?_⟩
      subst hxa
      exact hnd.1 hx

/-! ### Stripping lemmas -/

theorem pyStripR_eq (s : Str) : pyStripR s = s.rdropWhile isPySpace := rfl

theorem pyStripL_eq_self_of (s : Str) (h : ∀ c ∈ s.head?, isPySpace c = false) :
    pyStripL s = s := by
  cases s with
  | nil => rfl
  | cons c cs =>
    have := h c (by simp)
    simp [pyStripL, List.dropWhile_cons, this]

theorem pyStripR_eq_self_of (s : Str) (h : ∀ c ∈ s.getLast?, isPySpace c = false) :
    pyStripR s = s := by
  rw [pyStripR_eq, List.rdropWhile_eq_self_iff]
  intro hl hp
  have hmem : s.getLast hl ∈ s.getLast? := by
    rw [List.getLast?_eq_getLast s hl]
    rfl
  have := h _ hmem
  rw [this] at hp
  exact Bool.false_ne_true hp

theorem pyStrip_eq_self_of (s : Str) (h1 : ∀ c ∈ s.head?, isPySpace c = false)
    (h2 : ∀ c ∈ s.getLast?, isPySpace c = false) : pyStrip s = s := by
  rw [pyStrip, pyStripL_eq_self_of s h1, pyStripR_eq_self_of s h2]

theorem pyStrip_head_not_space (s : Str) : ∀ c ∈ (pyStrip s).head?, isPySpace c = false := by
  intro c hc
  have hpre : pyStrip s <+: pyStripL s := by
    rw [pyStrip, pyStripR_eq]
    exact List.rdropWhile_prefix _ _
  obtain ⟨t, ht⟩ := hpre
  have hh : (pyStripL s).head? = some c := by
    rw [← ht, List.head?_append, hc]
    rfl
  have := List.head?_dropWhile_not isPySpace s
  rw [show s.dropWhile isPySpace = pyStripL s from rfl, hh] at this
  exact this

theorem pyStrip_getLast_not_space (s : Str) :
    ∀ c ∈ (pyStrip s).getLast?, isPySpace c = false := by
  intro c hc
  obtain ⟨hl, rfl⟩ := List.mem_getLast?_eq_getLast hc
  have hnot : ¬ isPySpace ((pyStrip s).getLast hl) = true :=
    List.rdropWhile_last_not isPySpace (pyStripL s) hl
  simpa using hnot

theorem pyStrip_idem (s : Str) : pyStrip (pyStrip s) = pyStrip s :=
  pyStrip_eq_self_of _ (pyStrip_head_not_space s) (pyStrip_getLast_not_space s)

theorem mem_of_mem_pyStrip {s : Str} {a : Char} (h : a ∈ pyStrip s) : a ∈ s := by
  have h1 : pyStrip s <+: pyStripL s := by
    rw [pyStrip, pyStripR_eq]
    exact List.rdropWhile_prefix _ _
  have h2 : List.Sublist (pyStripL s) s := List.dropWhile_sublist _
  exact h2.subset (h1.sublist.subset h)

theorem pyStrip_eq_self_split {s : Str} (h : pyStrip s = s) :
    pyStripL s = s ∧ pyStripR s = s := by
  have hsub1 : List.Sublist (pyStripL s) s := List.dropWhile_sublist _
  have hsub2 : List.Sublist (pyStrip s) (pyStripL s) := by
    rw [pyStrip, pyStripR_eq]
    exact (List.rdropWhile_prefix _ _).sublist
  have hlen : (pyStripL s).length = s.length := by
    have l1 := hsub1.length_le
    have l2 := hsub2.length_le
    rw [h] at l2
    omega
  have hL : pyStripL s = s := hsub1.eq_of_length hlen
  refine ⟨hL, ?_⟩
  rw [pyStrip, hL] at h
  exact h

theorem pyStrip_head_of_eq_self {s : Str} (h : pyStrip s = s) :
    ∀ c ∈ s.head?, isPySpace c = false := by
  intro c hc
  exact pyStrip_head_not_space s c (h.symm ▸ hc)

theorem pyStrip_getLast_of_eq_self {s : Str} (h : pyStrip s = s) :
    ∀ c ∈ s.getLast?, isPySpace c = false := by
  intro c hc
  exact pyStrip_getLast_not_space s c (h.symm ▸ hc)

theorem pyStrip_space_cons {v : Str} (hv : pyStrip v = v) : pyStrip (' ' :: v) = v := by
  have hL : pyStripL (' ' :: v) = pyStripL v := by
    simp [pyStripL, List.dropWhile_cons, isPySpace]
  rw [pyStrip, hL, (pyStrip_eq_self_split hv).1]
  exact (pyStrip_eq_self_split hv).2

/-! ### Key-value line lemmas -/

theorem isPySpace_space : isPySpace ' ' = true := by decide

theorem isPySpace_colon : isPySpace ':' = false := by decide

theorem pyStrip_keyValueLine (k v : Str) (hk : pyStrip k = k) (hv : pyStrip v = v) :
    pyStrip (k ++ ':' :: ' ' :: v) =
      if v = [] then k ++ [':'] else k ++ ':' :: ' ' :: v := by
  have hhead : ∀ c ∈ (k ++ ':' :: ' ' :: v).head?, isPySpace c = false := by
    intro c hc
    cases k with
    | nil =>
      simp only [List.nil_append, List.head?_cons, Option.mem_def, Option.some.injEq] at hc
      subst hc
      decide
    | cons a ks =>
      simp only [List.cons_append, List.head?_cons, Option.mem_def, Option.some.injEq] at hc
      obtain rfl := hc
      exact pyStrip_head_of_eq_self hk _ (by simp)
  have hL : pyStripL (k ++ ':' :: ' ' :: v) = k ++ ':' :: ' ' :: v :=
    pyStripL_eq_self_of _ hhead
  by_cases hve : v = []
  · subst hve
    rw [if_pos rfl, pyStrip, hL, pyStripR]
    have hrev : (k ++ ':' :: ' ' :: ([] : Str)).reverse = ' ' :: ':' :: k.reverse := by
      simp
    rw [hrev, List.dropWhile_cons]
    simp only [isPySpace_space, if_pos]
    rw [List.dropWhile_cons]
    simp [isPySpace_colon]
  · rw [if_neg hve]
    have hlast : ∀ c ∈ (k ++ ':' :: ' ' :: v).getLast?, isPySpace c = false := by
      intro c hc
      have hx : (k ++ ':' :: ' ' :: v).getLast? = v.getLast? := by
        rw [show (k ++ ':' :: ' ' :: v) = (k ++ [':', ' ']) ++ v by simp]
        rw [List.getLast?_append]
        cases hgl : v.getLast? with
        | none => exact absurd (List.getLast?_eq_none_iff.mp hgl) hve
        | some x => rfl
      rw [hx] at hc
      exact pyStrip_getLast_of_eq_self hv c hc
    exact pyStrip_eq_self_of _ hhead hlast

theorem splitFirstColon_append (k rest : Str) (hk : ':' ∉ k) :
    splitFirstColon (k ++ ':' :: rest) = (k, rest) := by
  induction k with
  | nil => simp [splitFirstColon]
  | cons c ks ih =>
    simp only [List.mem_cons, not_or] at hk
    have h1 : c ≠ ':' := fun hc => hk.1 hc.symm
    simp only [List.cons_append, splitFirstColon, List.append_eq, if_neg h1, ih hk.2]

theorem splitFirstColon_fst_no_colon (s : Str) : ':' ∉ (splitFirstColon s).1 := by
  induction s with
  | nil => simp [splitFirstColon]
  | cons c cs ih =>
    by_cases h : c = ':'
    · simp [splitFirstColon, h]
    · simp only [splitFirstColon, if_neg h, List.mem_cons, not_or]
      exact ⟨fun hc => h hc.symm, ih⟩

theorem mem_splitFirstColon_fst {s : Str} {a : Char} (h : a ∈ (splitFirstColon s).1) : a ∈ s := by
  induction s with
  | nil => simp [splitFirstColon] at h
  | cons c cs ih =>
    by_cases hc : c = ':'
    · simp [splitFirstColon, hc] at h
    · simp only [splitFirstColon, if_neg hc, List.mem_cons] at h
      rcases h with h | h
      · simp [h]
      · exact List.mem_cons_of_mem _ (ih h)

theorem mem_splitFirstColon_snd {s : Str} {a : Char} (h : a ∈ (splitFirstColon s).2) : a ∈ s := by
  induction s with
  | nil => simp [splitFirstColon] at h
  | cons c cs ih =>
    by_cases hc : c = ':'
    · simp only [splitFirstColon, if_pos hc] at h
      exact List.mem_cons_of_mem _ h
    · simp only [splitFirstColon, if_neg hc] at h
      exact List.mem_cons_of_mem _ (ih h)

/-! ### Split and join lemmas -/

theorem splitChar_ne_nil (sep : Char) (s : Str) : splitChar sep s ≠ [] := by
  induction s with
  | nil => simp [splitChar]
  | cons c cs ih =>
    cases hsc : splitChar sep cs with
    | nil => exact absurd hsc ih
    | cons l ls =>
      rw [splitChar, hsc]
      by_cases h : c = sep <;> simp [h]

theorem splitChar_append_cons (sep : Char) (l : Str) (hl : sep ∉ l) (t : Str) :
    splitChar sep (l ++ sep :: t) = l :: splitChar sep t := by
  induction l with
  | nil =>
    cases hsc : splitChar sep t with
    | nil => exact absurd hsc (splitChar_ne_nil sep t)
    | cons x xs =>
      simp only [List.nil_append]
      rw [splitChar, hsc]
      simp [← hsc]
  | cons c cs ih =>
    simp only [List.mem_cons, not_or] at hl
    have h1 : c ≠ sep := fun hh => hl.1 hh.symm
    simp only [List.cons_append]
    rw [splitChar, ih hl.2]
    simp [h1]

theorem splitChar_of_not_mem (sep : Char) (s : Str) (h : sep ∉ s) : splitChar sep s = [s] := by
  induction s with
  | nil => simp [splitChar]
  | cons c cs ih =>
    simp only [List.mem_cons, not_or] at h
    have h1 : c ≠ sep := fun hh => h.1 hh.symm
    rw [splitChar, ih h.2]
    simp [h1]

theorem joinNl_cons (l : Str) (ls : List Str) (h : ls ≠ []) :
    joinNl (l :: ls) = l ++ '\n' :: joinNl ls := by
  cases ls with
  | nil => exact absurd rfl h
  | cons l2 ls2 => rfl

theorem splitNl_joinNl (ls : List Str) (hne : ls ≠ []) (h : ∀ l ∈ ls, '\n' ∉ l) :
    splitNl (joinNl ls) = ls := by
  induction ls with
  | nil => exact absurd rfl hne
  | cons l ls ih =>
    cases ls with
    | nil => exact splitChar_of_not_mem '\n' l (h l (by simp))
    | cons l2 ls2 =>
      rw [joinNl_cons _ _ (by simp)]
      show splitChar '\n' (l ++ '\n' :: joinNl (l2 :: ls2)) = l :: l2 :: ls2
      rw [splitChar_append_cons '\n' l (h l (by simp)) _]
      have := ih (by simp) (fun x hx => h x (List.mem_cons_of_mem _ hx))
      rw [show splitNl (joinNl (l2 :: ls2)) = splitChar '\n' (joinNl (l2 :: ls2)) from rfl] at this
      rw [this]

theorem joinNl_append (xs ys : List Str) (hx : xs ≠ []) (hy : ys ≠ []) :
    joinNl (xs ++ ys) = joinNl xs ++ '\n' :: joinNl ys := by
  induction xs with
  | nil => exact absurd rfl hx
  | cons x xs ih =>
    cases xs with
    | nil =>
      simp only [List.singleton_append]
      rw [joinNl_cons x ys hy]
      rfl
    | cons x2 xs2 =>
      rw [List.cons_append, joinNl_cons x ((x2 :: xs2) ++ ys) (by simp),
        ih (by simp), joinNl_cons x (x2 :: xs2) (by simp)]
      simp

theorem mem_dictInsert {κ ν : Type} [DecidableEq κ] {d : List (κ × ν)} {k : κ} {v : ν}
    {x : κ × ν} (h : x ∈ dictInsert d k v) : x ∈ d ∨ x = (k, v) := by
  induction d with
  | nil =>
    simp [dictInsert] at h
    simp [h]
  | cons kv d ih =>
    obtain ⟨a, b⟩ := kv
    by_cases ha : a = k
    · subst ha
      rw [dictInsert_cons_self] at h
      rcases List.mem_cons.mp h with h1 | h1
      · exact Or.inr h1
      · exact Or.inl (List.mem_cons_of_mem _ h1)
    · rw [dictInsert_cons_ne _ _ _ _ _ ha] at h
      rcases List.mem_cons.mp h with h1 | h1
      · exact Or.inl (List.mem_cons.mpr (Or.inl h1))
      · rcases ih h1 with h2 | h2
        · exact Or.inl (List.mem_cons_of_mem _ h2)
        · exact Or.inr h2

theorem not_mem_of_mem_splitChar {sep : Char} {s l : Str} (hl : l ∈ splitChar sep s) :
    sep ∉ l := by
  induction s generalizing l with
  | nil =>
    simp [splitChar] at hl
    simp [hl]
  | cons c cs ih =>
    cases hsc : splitChar sep cs with
    | nil => exact absurd hsc (splitChar_ne_nil sep cs)
    | cons x xs =>
      rw [splitChar, hsc] at hl
      by_cases h : c = sep
      · simp only [if_pos h] at hl
        rcases List.mem_cons.mp hl with h1 | h1
        · subst h1
          simp
        · exact ih (hsc ▸ h1)
      · simp only [if_neg h] at hl
        rcases List.mem_cons.mp hl with h1 | h1
        · subst h1
          intro hmem
          rcases List.mem_cons.mp hmem with h2 | h2
          · exact h h2.symm
          · have hx : x ∈ splitChar sep cs := by
              rw [hsc]
              simp
            exact ih hx h2
        · have hx : l ∈ splitChar sep cs := by
            rw [hsc]
            exact List.mem_cons_of_mem _ h1
          exact ih hx

/-! ### Parse and build round trip -/

theorem parse_step_line (fields : List (Str × Str)) (k v : Str) (hc : cleanField (k, v)) :
    (fun fields line =>
      let l := pyStrip line
      if l ≠ [] ∧ ':' ∈ l then
        let kv := splitFirstColon l
        dictInsert fields (pyStrip kv.1) (pyStrip kv.2)
      else fields) fields (k ++ ':' :: ' ' :: v) = dictInsert fields k v := by
  obtain ⟨hk, hv, hkc, -, -⟩ := hc
  simp only []
  by_cases hve : v = []
  · subst hve
    have hstrip : pyStrip (k ++ ':' :: ' ' :: ([] : Str)) = k ++ [':'] := by
      simpa using pyStrip_keyValueLine k [] hk hv
    have hsp : splitFirstColon (k ++ [':']) = (k, []) := by
      simpa using splitFirstColon_append k [] hkc
    rw [hstrip, if_pos ⟨by simp, by simp⟩, hsp]
    rw [show pyStrip (k, ([] : Str)).1 = k from hk]
    rfl
  · have hstrip : pyStrip (k ++ ':' :: ' ' :: v) = k ++ ':' :: ' ' :: v := by
      simpa [hve] using pyStrip_keyValueLine k v hk hv
    have hsp : splitFirstColon (k ++ ':' :: ' ' :: v) = (k, ' ' :: v) :=
      splitFirstColon_append k (' ' :: v) hkc
    rw [hstrip, if_pos ⟨by simp, by simp⟩, hsp]
    rw [show pyStrip (k, ' ' :: v).1 = k from hk]
    rw [show pyStrip (k, ' ' :: v).2 = v from pyStrip_space_cons hv]

theorem foldl_parse_map (d : List (Str × Str)) (acc : List (Str × Str))
    (hclean : cleanFields d) :
    (d.map (fun kv => kv.1 ++ ':' :: ' ' :: kv.2)).foldl
      (fun fields line =>
        let l := pyStrip line
        if l ≠ [] ∧ ':' ∈ l then
          let kv := splitFirstColon l
          dictInsert fields (pyStrip kv.1) (pyStrip kv.2)
        else fields) acc
    = d.foldl (fun a kv => dictInsert a kv.1 kv.2) acc := by
  induction d generalizing acc with
  | nil => rfl
  | cons kv d ih =>
    obtain ⟨k, v⟩ := kv
    simp only [List.map_cons, List.foldl_cons]
    refine Eq.trans (ih _ (fun x hx => hclean x (List.mem_cons_of_mem _ hx))) ?_
    exact congrArg (fun a => List.foldl (fun a kv => dictInsert a kv.1 kv.2) a d)
      (parse_step_line acc k v (hclean (k, v) (by simp)))

theorem parse_build (d : List (Str × Str)) (hnd : (d.map Prod.fst).Nodup)
    (hclean : cleanFields d) :
    parse_front_matter (build_front_matter d) = d := by
  have hlines : splitNl (build_front_matter d) =
      MARKER :: (d.map (fun kv => kv.1 ++ ':' :: ' ' :: kv.2) ++ [MARKER]) := by
    apply splitNl_joinNl
    · simp
    · intro l hl
      rcases List.mem_cons.mp hl with rfl | hl
      · decide
      · rcases List.mem_append.mp hl with hl | hl
        · obtain ⟨kv, hkv, rfl⟩ := List.mem_map.mp hl
          have hc := hclean kv hkv
          intro hmem
          rcases List.mem_append.mp hmem with h1 | h1
          · exact hc.2.2.2.1 h1
          · rcases List.mem_cons.mp h1 with h2 | h2
            · exact absurd h2 (by decide)
            · rcases List.mem_cons.mp h2 with h3 | h3
              · exact absurd h3 (by decide)
              · exact hc.2.2.2.2 h3
        · rw [List.mem_singleton.mp hl]
          decide
  rw [parse_front_matter]
  simp only []
  rw [hlines]
  simp only [List.drop_succ_cons, List.drop_zero, List.dropLast_concat]
  rw [foldl_parse_map d [] hclean]
  rw [foldl_dictInsert_pairs d [] hnd (by simp)]
  simp

theorem parse_step_preserves (acc : List (Str × Str)) (line : Str) (hl : '\n' ∉ line)
    (h1 : (acc.map Prod.fst).Nodup) (h2 : cleanFields acc) :
    ((if pyStrip line ≠ [] ∧ ':' ∈ pyStrip line then
        dictInsert acc (pyStrip (splitFirstColon (pyStrip line)).1)
          (pyStrip (splitFirstColon (pyStrip line)).2)
      else acc).map Prod.fst).Nodup ∧
    cleanFields (if pyStrip line ≠ [] ∧ ':' ∈ pyStrip line then
        dictInsert acc (pyStrip (splitFirstColon (pyStrip line)).1)
          (pyStrip (splitFirstColon (pyStrip line)).2)
      else acc) := by
  by_cases hcond : pyStrip line ≠ [] ∧ ':' ∈ pyStrip line
  · simp only [if_pos hcond]
    constructor
    · exact nodup_keys_dictInsert _ _ h1
    · intro kv hkv
      rcases mem_dictInsert hkv with hm | hm
      · exact h2 kv hm
      · subst hm
        refine ⟨pyStrip_idem _, pyStrip_idem _, ?_, ?_, ?_⟩
        · intro hc
          exact splitFirstColon_fst_no_colon (pyStrip line) (mem_of_mem_pyStrip hc)
        · intro hc
          exact hl (mem_of_mem_pyStrip (mem_splitFirstColon_fst (mem_of_mem_pyStrip hc)))
        · intro hc
          exact hl (mem_of_mem_pyStrip (mem_splitFirstColon_snd (mem_of_mem_pyStrip hc)))
  · simp only [if_neg hcond]
    exact ⟨h1, h2⟩

theorem parse_fold_invariant : ∀ (lines : List Str), (∀ l ∈ lines, '\n' ∉ l) →
    ∀ acc : List (Str × Str), (acc.map Prod.fst).Nodup → cleanFields acc →
      ((lines.foldl (fun fields line =>
          let l := pyStrip line
          if l ≠ [] ∧ ':' ∈ l then
            let kv := splitFirstColon l
            dictInsert fields (pyStrip kv.1) (pyStrip kv.2)
          else fields) acc).map Prod.fst).Nodup ∧
      cleanFields (lines.foldl (fun fields line =>
          let l := pyStrip line
          if l ≠ [] ∧ ':' ∈ l then
            let kv := splitFirstColon l
            dictInsert fields (pyStrip kv.1) (pyStrip kv.2)
          else fields) acc) := by
  intro lines
  induction lines with
  | nil =>
    intro _ acc h1 h2
    exact ⟨h1, h2⟩
  | cons line lines ih =>
    intro hnl acc h1 h2
    simp only [List.foldl_cons]
    have hp := parse_step_preserves acc line (hnl line (by simp)) h1 h2
    exact ih (fun l hl => hnl l (List.mem_cons_of_mem _ hl)) _ hp.1 hp.2

theorem parse_lines_no_newline (fm : Str) :
    ∀ l ∈ ((splitNl fm).drop 1).dropLast, '\n' ∉ l := by
  intro l hl
  have h1 : l ∈ (splitNl fm).drop 1 := (List.dropLast_sublist _).subset hl
  have h2 : l ∈ splitNl fm := (List.drop_sublist _ _).subset h1
  exact not_mem_of_mem_splitChar h2

theorem parse_fields_nodup (fm : Str) : ((parse_front_matter fm).map Prod.fst).Nodup :=
  (parse_fold_invariant _ (parse_lines_no_newline fm) [] (by simp) (by intro kv h; simp at h)).1

theorem parse_fields_clean (fm : Str) : cleanFields (parse_front_matter fm) :=
  (parse_fold_invariant _ (parse_lines_no_newline fm) [] (by simp) (by intro kv h; simp at h)).2

/-- C7: for every header h, parsing the header rebuilt from its parsed fields
yields the same field map: parse_front_matter (build_front_matter
(parse_front_matter h)) = parse_front_matter h. -/
theorem C7_header_field_round_trip (h : Str) :
    parse_front_matter (build_front_matter (parse_front_matter h)) = parse_front_matter h :=
  parse_build _ (parse_fields_nodup h) (parse_fields_clean h)

/-! ### Locating the closing marker -/

theorem MARKER_chars : MARKER = ['-', '-', '-'] := rfl

theorem nlMarker_chars : str "\n---" = '\n' :: MARKER := rfl

theorem marker_not_prefix_append {l : Str} (z : Str) (hl : ¬ MARKER <+: l)
    (hz : z.head? ≠ some '-') : ¬ MARKER <+: (l ++ z) := by
  intro hpre
  rcases Nat.lt_or_ge l.length 3 with hlen | hlen
  · obtain ⟨t, ht⟩ := hpre
    have hL : (MARKER ++ t)[l.length]? = some '-' := by
      rw [List.getElem?_append, if_pos (by rw [MARKER_chars]; simpa using hlen)]
      have h3 : l.length = 0 ∨ l.length = 1 ∨ l.length = 2 := by omega
      rcases h3 with h | h | h <;> rw [h] <;> rfl
    rw [ht, List.getElem?_append, if_neg (lt_irrefl _), Nat.sub_self] at hL
    rw [← List.head?_eq_getElem?] at hL
    exact hz hL
  · refine hl (List.prefix_of_prefix_length_le hpre (List.prefix_append l z) ?_)
    rw [MARKER_chars]
    simpa using hlen

theorem pyFind_cons_pos (pat : Str) (c : Char) (cs : Str) (h : pat <+: (c :: cs)) :
    pyFind pat (c :: cs) = some 0 := by
  rw [pyFind, if_pos (List.isPrefixOf_iff_prefix.mpr h)]

theorem pyFind_cons_neg (pat : Str) (c : Char) (cs : Str) (h : ¬ pat <+: (c :: cs)) :
    pyFind pat (c :: cs) = (pyFind pat cs).map (· + 1) := by
  rw [pyFind, if_neg]
  intro hb
  exact h (List.isPrefixOf_iff_prefix.mp hb)

theorem nlMarker_shift (l : Str) (hnl : '\n' ∉ l) (t : Str) (hpre : ¬ MARKER <+: t) :
    pyFind (str "\n---") (l ++ '\n' :: t) =
      (pyFind (str "\n---") t).map (· + (l.length + 1)) := by
  induction l with
  | nil =>
    simp only [List.nil_append]
    rw [pyFind_cons_neg]
    · cases pyFind (str "\n---") t <;> rfl
    · intro hp
      rw [nlMarker_chars, List.cons_prefix_cons] at hp
      exact hpre hp.2
  | cons c l ih =>
    have hc : ¬ c = '\n' := fun h => hnl (by simp [h])
    rw [List.cons_append, pyFind_cons_neg]
    · rw [ih (fun h => hnl (List.mem_cons_of_mem _ h))]
      cases pyFind (str "\n---") t <;> rfl
    · intro hp
      rw [nlMarker_chars, List.cons_prefix_cons] at hp
      exact hc hp.1.symm

theorem nlMarker_hit (l : Str) (hnl : '\n' ∉ l) (t : Str) (hpre : MARKER <+: t) :
    pyFind (str "\n---") (l ++ '\n' :: t) = some l.length := by
  induction l with
  | nil =>
    simp only [List.nil_append]
    rw [pyFind_cons_pos]
    · rfl
    · rw [nlMarker_chars, List.cons_prefix_cons]
      exact ⟨rfl, hpre⟩
  | cons c l ih =>
    have hc : ¬ c = '\n' := fun h => hnl (by simp [h])
    rw [List.cons_append, pyFind_cons_neg]
    · rw [ih (fun h => hnl (List.mem_cons_of_mem _ h))]
      rfl
    · intro hp
      rw [nlMarker_chars, List.cons_prefix_cons] at hp
      exact hc hp.1.symm

theorem nlMarker_joined (lines : List Str) (hne : lines ≠ [])
    (h : ∀ l ∈ lines, '\n' ∉ l ∧ ¬ MARKER <+: l) (u : Str) :
    pyFind (str "\n---") (joinNl lines ++ '\n' :: (MARKER ++ u)) =
      some (joinNl lines).length := by
  induction lines with
  | nil => exact absurd rfl hne
  | cons l ls ih =>
    cases ls with
    | nil => exact nlMarker_hit l (h l (by simp)).1 _ (List.prefix_append _ _)
    | cons l2 ls2 =>
      rw [joinNl_cons l (l2 :: ls2) (by simp), List.append_assoc, List.cons_append]
      rw [nlMarker_shift l (h l (by simp)).1 _ ?hm]
      · rw [ih (by simp) (fun x hx => h x (List.mem_cons_of_mem _ hx))]
        simp only [Option.map_some', Option.some.injEq, List.length_append, List.length_cons]
        omega
      · have h2 := h l2 (by simp)
        cases ls2 with
        | nil => exact marker_not_prefix_append _ h2.2 (by simp)
        | cons l3 ls3 =>
          rw [joinNl_cons l2 (l3 :: ls3) (by simp), List.append_assoc, List.cons_append]
          exact marker_not_prefix_append _ h2.2 (by simp)

/-! ### Splitting a rebuilt document -/

theorem build_front_matter_decompose (fields : List (Str × Str)) (hne : fields ≠ []) :
    build_front_matter fields =
      MARKER ++ '\n' ::
        (joinNl (fields.map (fun kv => kv.1 ++ ':' :: ' ' :: kv.2)) ++ '\n' :: MARKER) := by
  rw [build_front_matter, joinNl_cons _ _ (by simp),
    joinNl_append _ _ (by simpa using hne) (by simp)]
  rfl

theorem build_lines_ok (fields : List (Str × Str))
    (hnl : ∀ kv ∈ fields, '\n' ∉ kv.1 ∧ '\n' ∉ kv.2)
    (hmk : ∀ kv ∈ fields, ¬ MARKER <+: kv.1) :
    ∀ l ∈ fields.map (fun kv => kv.1 ++ ':' :: ' ' :: kv.2), '\n' ∉ l ∧ ¬ MARKER <+: l := by
  intro l hl
  obtain ⟨kv, hkv, rfl⟩ := List.mem_map.mp hl
  constructor
  · intro hmem
    rcases List.mem_append.mp hmem with h1 | h1
    · exact (hnl kv hkv).1 h1
    · rcases List.mem_cons.mp h1 with h2 | h2
      · exact absurd h2 (by decide)
      · rcases List.mem_cons.mp h2 with h3 | h3
        · exact absurd h3 (by decide)
        · exact (hnl kv hkv).2 h3
  · exact marker_not_prefix_append _ (hmk kv hkv) (by simp)

theorem pyLStripNl_two (body : Str) : pyLStripNl ('\n' :: '\n' :: body) = pyLStripNl body := rfl

theorem get_existing_of_build (fields : List (Str × Str)) (hne : fields ≠ [])
    (hnl : ∀ kv ∈ fields, '\n' ∉ kv.1 ∧ '\n' ∉ kv.2)
    (hmk : ∀ kv ∈ fields, ¬ MARKER <+: kv.1) (body : Str) :
    get_existing_front_matter (build_front_matter fields ++ '\n' :: '\n' :: body) =
      some (build_front_matter fields, pyLStripNl body) := by
  have hdec := build_front_matter_decompose fields hne
  have hlne : fields.map (fun kv => kv.1 ++ ':' :: ' ' :: kv.2) ≠ [] := by simpa using hne
  have hlok := build_lines_ok fields hnl hmk
  have hlen : (build_front_matter fields).length =
      4 + (joinNl (fields.map (fun kv => kv.1 ++ ':' :: ' ' :: kv.2))).length + 4 := by
    rw [hdec]
    simp only [List.length_append, List.length_cons, MARKER_chars]
    simp
    omega
  have hpre : MARKER <+: (build_front_matter fields ++ '\n' :: '\n' :: body) := by
    rw [hdec, List.append_assoc]
    exact List.prefix_append _ _
  have hdrop : (build_front_matter fields ++ '\n' :: '\n' :: body).drop 4 =
      joinNl (fields.map (fun kv => kv.1 ++ ':' :: ' ' :: kv.2)) ++
        '\n' :: (MARKER ++ '\n' :: '\n' :: body) := by
    rw [hdec]
    simp only [List.append_assoc, List.cons_append]
    rfl
  have hfind := nlMarker_joined _ hlne hlok ('\n' :: '\n' :: body)
  rw [get_existing_front_matter, if_neg (by simp [List.isPrefixOf_iff_prefix, hpre])]
  simp only [hdrop, hfind]
  rw [List.take_left' hlen, List.drop_left' hlen, pyLStripNl_two]

/-! ### Index removal lemmas -/

theorem eq_snd_of_mem_keys_nodup {κ ν : Type} [DecidableEq κ] {d : List (κ × ν)}
    (hnd : (d.map Prod.fst).Nodup) {k : κ} {a b : ν} (ha : (k, a) ∈ d) (hb : (k, b) ∈ d) :
    a = b := by
  have h1 := dictGet_of_mem hnd ha
  have h2 := dictGet_of_mem hnd hb
  rw [h1] at h2
  exact Option.some.inj h2

theorem remove_from_index_spec (workspace_path file_path : Str) (S : Sys) (rel : Str)
    (hrel : calculate_file_relative_path workspace_path file_path = .ok rel)
    (hnd : (S.index.map Prod.fst).Nodup) :
    ∃ S' removed, remove_from_index workspace_path file_path true S = .ok (S', removed) ∧
      (∀ kv, kv ∈ S'.index ↔ kv ∈ S.index ∧ kv.2 ≠ rel) ∧
      (∀ d, d ∈ S'.assets ↔ d ∈ S.assets ∧
        ∀ k, (k, rel) ∈ S.index → d ≠ assets_dir_path workspace_path k) ∧
      (removed = true ↔ ∃ kv ∈ S.index, kv.2 = rel) ∧
      S'.files = S.files := by
  have hmem_td : ∀ k, k ∈ ((S.index.filter (fun kv => kv.2 = rel)).map Prod.fst) ↔
      (k, rel) ∈ S.index := by
    intro k
    constructor
    · intro hk
      obtain ⟨kv, hkv, rfl⟩ := List.mem_map.mp hk
      have hmf := List.mem_filter.mp hkv
      have h2 : kv.2 = rel := by simpa using hmf.2
      rw [show (kv.1, rel) = kv by rw [← h2]]
      exact hmf.1
    · intro hk
      exact List.mem_map.mpr ⟨(k, rel), List.mem_filter.mpr ⟨hk, by simp⟩, rfl⟩
  refine ⟨{ S with
      index := S.index.filter
        (fun kv => kv.1 ∉ (S.index.filter (fun kv => kv.2 = rel)).map Prod.fst),
      assets := S.assets.filter
        (fun d => d ∉ ((S.index.filter (fun kv => kv.2 = rel)).map Prod.fst).map
          (assets_dir_path workspace_path)) },
    !((S.index.filter (fun kv => kv.2 = rel)).map Prod.fst).isEmpty, ?_, ?_, ?_, ?_, ?_⟩
  · rw [remove_from_index, if_neg (by simp), hrel]
  · intro kv
    simp only [List.mem_filter, decide_not, Bool.not_eq_true', decide_eq_false_iff_not]
    constructor
    · rintro ⟨hmem, hnot⟩
      refine ⟨hmem, fun h2 => hnot ?_⟩
      rw [hmem_td, ← h2]
      exact hmem
    · rintro ⟨hmem, hne⟩
      refine ⟨hmem, fun h2 => hne ?_⟩
      rw [hmem_td] at h2
      exact eq_snd_of_mem_keys_nodup hnd hmem h2
  · intro d
    simp only [List.mem_filter, decide_not, Bool.not_eq_true', decide_eq_false_iff_not]
    constructor
    · rintro ⟨hmem, hnot⟩
      refine ⟨hmem, fun k hk heq => hnot ?_⟩
      exact List.mem_map.mpr ⟨k, (hmem_td k).mpr hk, heq.symm⟩
    · rintro ⟨hmem, hall⟩
      refine ⟨hmem, fun h2 => ?_⟩
      obtain ⟨k, hk, rfl⟩ := List.mem_map.mp h2
      exact hall k ((hmem_td k).mp hk) rfl
  · constructor
    · intro h
      have hne : (S.index.filter (fun kv => kv.2 = rel)).map Prod.fst ≠ [] := by
        intro hnil
        rw [hnil] at h
        simp at h
      obtain ⟨k, hk⟩ := List.exists_mem_of_ne_nil _ hne
      exact ⟨(k, rel), (hmem_td k).mp hk, rfl⟩
    · rintro ⟨kv, hkv, h2⟩
      have hmem : kv.1 ∈ (S.index.filter (fun kv => kv.2 = rel)).map Prod.fst := by
        rw [hmem_td, ← h2]
        exact hkv
      cases hmap : (S.index.filter (fun kv => kv.2 = rel)).map Prod.fst with
      | nil =>
        rw [hmap] at hmem
        simp at hmem
      | cons a l => rfl
  · rfl

theorem calculate_relative_path_ok (workspace_path file_path : Str)
    (hpre : workspace_path.isPrefixOf file_path = true) :
    ∃ r, calculate_relative_path workspace_path file_path = .ok r := by
  rw [calculate_relative_path, if_neg (by simp [hpre])]
  simp only []
  split
  · exact ⟨_, rfl⟩
  · exact ⟨_, rfl⟩

/-! ### Claims C1, C3, C9, C10 -/

/-- C1, counterexample: delete handling does not leave the .assets tree
unchanged.  With one indexed document /w/a.md under serial s1abcdef and that
serial's assets directory present on disk, remove_from_index removes the
index entry and also deletes the assets directory. -/
theorem C1_counterexample :
    remove_from_index (str "/w") (str "/w/a.md") true
        ⟨[], [(str "s1abcdef", str "/a.md")], [str "/w/.assets/s/s1abcdef"]⟩ =
      .ok (⟨[], [], []⟩, true) ∧
    str "/w/.assets/s/s1abcdef" = assets_dir_path (str "/w") (str "s1abcdef") :=
  ⟨rfl, rfl⟩

/-- C1, amended: handling a delete removes exactly the Index entries whose
stored path equals the document's relative path, and also deletes the assets
directory workspace/.assets/serial[:1]/serial of every removed serial; asset
directories of serials that are not removed are untouched, and the document
files are untouched. -/
theorem C1_delete_removes_entries_and_assets (workspace_path file_path : Str) (S : Sys)
    (rel : Str)
    (hrel : calculate_file_relative_path workspace_path file_path = .ok rel)
    (hnd : (S.index.map Prod.fst).Nodup) :
    ∃ S' removed, remove_from_index workspace_path file_path true S = .ok (S', removed) ∧
      (∀ kv, kv ∈ S'.index ↔ kv ∈ S.index ∧ kv.2 ≠ rel) ∧
      (∀ d, d ∈ S'.assets ↔ d ∈ S.assets ∧
        ∀ k, (k, rel) ∈ S.index → d ≠ assets_dir_path workspace_path k) ∧
      (removed = true ↔ ∃ kv ∈ S.index, kv.2 = rel) ∧
      S'.files = S.files :=
  remove_from_index_spec workspace_path file_path S rel hrel hnd

theorem C1_delete_witness :
    ∃ S' removed,
      remove_from_index (str "/w") (str "/w/a.md") true
        ⟨[], [(str "s1abcdef", str "/a.md"), (str "t2abcdef", str "/b.md")],
          [assets_dir_path (str "/w") (str "s1abcdef")]⟩ = .ok (S', removed) ∧
      removed = true := by
  obtain ⟨S', removed, h1, -, -, h4, -⟩ :=
    C1_delete_removes_entries_and_assets (str "/w") (str "/w/a.md")
      ⟨[], [(str "s1abcdef", str "/a.md"), (str "t2abcdef", str "/b.md")],
        [assets_dir_path (str "/w") (str "s1abcdef")]⟩
      (str "/a.md") (by rfl) (by decide)
  exact ⟨S', removed, h1, h4.mpr ⟨(str "s1abcdef", str "/a.md"), by decide, rfl⟩⟩

/-- C3, counterexample: a document starting with the marker but with no closing
marker is not recovered: index_or_update_file neither writes a fresh header nor
upserts the Index; it returns false with everything unchanged. -/
theorem C3_counterexample :
    index_or_update_file (str "/w") (str "/w/a.md") true
        ⟨[(str "/w/a.md", str "---\nserial: x")], [], []⟩ (str "sabcdefg") =
      .ok (⟨[(str "/w/a.md", str "---\nserial: x")], [], []⟩, false) ∧
    has_front_matter (str "---\nserial: x") = true ∧
    get_existing_front_matter (str "---\nserial: x") = none :=
  ⟨rfl, rfl, rfl⟩

/-- C3, amended: for a document whose content starts with the header marker but
has no closing marker, the update operation performs no write, allocates no
serial and changes no Index entry: it returns false with the state unchanged. -/
theorem C3_malformed_header_skipped (workspace_path file_path content : Str) (S : Sys)
    (fresh : Str)
    (hfile : dictGet S.files file_path = some content)
    (hin : inside_workspace workspace_path file_path = true)
    (hmd : (str ".md").isSuffixOf file_path = true)
    (hpre : workspace_path.isPrefixOf file_path = true)
    (hfm : has_front_matter content = true)
    (hmal : get_existing_front_matter content = none) :
    index_or_update_file workspace_path file_path true S fresh = .ok (S, false) := by
  rw [index_or_update_file, if_neg (by simp), if_neg (by simp [hfile]), if_neg (by simp [hin]),
    if_neg (by simp [hmd])]
  obtain ⟨r, hr⟩ := calculate_relative_path_ok workspace_path file_path hpre
  simp only [add_front_matter_to_file, hfile, hr, hfm, hmal, if_true]

theorem C3_witness :
    index_or_update_file (str "/w") (str "/w/a.md") true
        ⟨[(str "/w/a.md", str "---\nabc")], [], []⟩ (str "sabcdefg") =
      .ok (⟨[(str "/w/a.md", str "---\nabc")], [], []⟩, false) :=
  C3_malformed_header_skipped (str "/w") (str "/w/a.md") (str "---\nabc")
    ⟨[(str "/w/a.md", str "---\nabc")], [], []⟩ (str "sabcdefg")
    (by decide) (by decide) (by decide) (by decide) (by decide) (by decide)

/-- C9, counterexample: remove_from_index does not fail for a path outside the
workspace; it returns ok false, leaving the state unchanged, instead of
raising a path-outside-workspace error. -/
theorem C9_counterexample :
    remove_from_index (str "/w") (str "/x/a.md") true
        ⟨[], [(str "s1abcdef", str "/a.md")], []⟩ =
      .ok (⟨[], [(str "s1abcdef", str "/a.md")], []⟩, false) := rfl

/-- C9, amended: for an existing document path that does not resolve under the
workspace root, index_or_update_file fails with a ValueError, but
remove_from_index catches the path error and returns false with the state
unchanged instead of failing. -/
theorem C9_outside_workspace (workspace_path file_path content : Str) (S : Sys) (fresh : Str)
    (hfile : dictGet S.files file_path = some content)
    (hin : inside_workspace workspace_path file_path = false)
    (hsw : workspace_path.isPrefixOf file_path = false) :
    index_or_update_file workspace_path file_path true S fresh = .error .valueError ∧
    remove_from_index workspace_path file_path true S = .ok (S, false) := by
  constructor
  · rw [index_or_update_file, if_neg (by simp), if_neg (by simp [hfile]),
      if_pos (by simp [hin])]
  · rw [remove_from_index, if_neg (by simp), calculate_file_relative_path,
      if_pos (by simp [hsw])]

theorem C9_witness :
    index_or_update_file (str "/w") (str "/x/a.md") true
        ⟨[(str "/x/a.md", str "hello")], [], []⟩ (str "sabcdefg") = .error .valueError ∧
    remove_from_index (str "/w") (str "/x/a.md") true
        ⟨[(str "/x/a.md", str "hello")], [], []⟩ =
      .ok (⟨[(str "/x/a.md", str "hello")], [], []⟩, false) :=
  C9_outside_workspace (str "/w") (str "/x/a.md") (str "hello")
    ⟨[(str "/x/a.md", str "hello")], [], []⟩ (str "sabcdefg")
    (by decide) (by decide) (by decide)

/-- C10: for an existing file inside the workspace whose path does not end in
.md, index_or_update_file fails with a ValueError before reading the file: the
same error results whatever the file's content is, and no state is produced. -/
theorem C10_non_markdown_rejected (workspace_path file_path : Str) (S : Sys) (fresh : Str)
    (content : Str)
    (hfile : dictGet S.files file_path = some content)
    (hin : inside_workspace workspace_path file_path = true)
    (hmd : (str ".md").isSuffixOf file_path = false) :
    index_or_update_file workspace_path file_path true S fresh = .error .valueError ∧
    ∀ c, index_or_update_file workspace_path file_path true
        ⟨dictInsert S.files file_path c, S.index, S.assets⟩ fresh = .error .valueError := by
  constructor
  · rw [index_or_update_file, if_neg (by simp), if_neg (by simp [hfile]),
      if_neg (by simp [hin]), if_pos (by simp [hmd])]
  · intro c
    rw [index_or_update_file, if_neg (by simp), if_neg (by simp [dictGet_insert_self]),
      if_neg (by simp [hin]), if_pos (by simp [hmd])]

theorem C10_witness :
    index_or_update_file (str "/w") (str "/w/a.txt") true
        ⟨[(str "/w/a.txt", str "hello")], [], []⟩ (str "sabcdefg") = .error .valueError :=
  (C10_non_markdown_rejected (str "/w") (str "/w/a.txt")
    ⟨[(str "/w/a.txt", str "hello")], [], []⟩ (str "sabcdefg") (str "hello")
    (by decide) (by decide) (by decide)).1

/-! ### Claim C6: the debounce gate -/

theorem should_process_reject (m : DebounceManager) (k p : Str) (now : ℚ)
    (h : now - (dictGet m.last_processed (k, p)).getD 0 < m.debounce_seconds) :
    should_process m k p now = (false, m) := by
  rw [should_process, if_pos h]

theorem should_process_admit (m : DebounceManager) (k p : Str) (now : ℚ)
    (h : ¬ now - (dictGet m.last_processed (k, p)).getD 0 < m.debounce_seconds) :
    should_process m k p now =
      (true, { m with last_processed := dictInsert m.last_processed (k, p) now }) := by
  rw [should_process, if_neg h]

/-- C6: should_process returns true and records now exactly when now minus the
recorded last timestamp for the pair is at least the 10-second window,
otherwise it returns false and leaves the map unchanged; a pair with no record
is admitted (the stored default being 0, so for any clock value of at least
the window).  In particular, an admit at time t is followed by a rejection at
t+5 and an admission at t+11. -/
theorem C6_debounce (m : DebounceManager) (k p : Str) (now t : ℚ)
    (hw : m.debounce_seconds = 10) :
    (∀ last, dictGet m.last_processed (k, p) = some last →
      (now - last < 10 → should_process m k p now = (false, m)) ∧
      (10 ≤ now - last →
        should_process m k p now =
          (true, { m with last_processed := dictInsert m.last_processed (k, p) now }))) ∧
    (dictGet m.last_processed (k, p) = none → 10 ≤ now →
      should_process m k p now =
        (true, { m with last_processed := dictInsert m.last_processed (k, p) now })) ∧
    ((should_process m k p t).1 = true →
      (should_process (should_process m k p t).2 k p (t + 5)).1 = false ∧
      (should_process (should_process (should_process m k p t).2 k p (t + 5)).2
          k p (t + 11)).1 = true) := by
  refine ⟨?_, ?_, ?_⟩
  · intro last hlast
    constructor
    · intro hlt
      apply should_process_reject m k p now
      rw [hlast, hw]
      simpa using hlt
    · intro hge
      apply should_process_admit m k p now
      rw [hlast, hw]
      simp only [Option.getD_some, not_lt]
      linarith
  · intro hnone hge
    apply should_process_admit m k p now
    rw [hnone, hw]
    simp only [Option.getD_none, not_lt]
    linarith
  · intro hfst
    have hadm : should_process m k p t =
        (true, { m with last_processed := dictInsert m.last_processed (k, p) t }) := by
      by_cases hc : t - (dictGet m.last_processed (k, p)).getD 0 < m.debounce_seconds
      · rw [should_process_reject m k p t hc] at hfst
        simp at hfst
      · exact should_process_admit m k p t hc
    rw [hadm]
    have hget : dictGet (dictInsert m.last_processed (k, p) t) (k, p) = some t :=
      dictGet_insert_self _ _ _
    have h5 := should_process_reject
        { m with last_processed := dictInsert m.last_processed (k, p) t } k p (t + 5)
        (by
          show t + 5 - (dictGet (dictInsert m.last_processed (k, p) t) (k, p)).getD 0 <
            m.debounce_seconds
          rw [hget, hw]
          simp only [Option.getD_some]
          linarith)
    rw [h5]
    refine ⟨rfl, ?_⟩
    have h11 := should_process_admit
        { m with last_processed := dictInsert m.last_processed (k, p) t } k p (t + 11)
        (by
          show ¬ t + 11 - (dictGet (dictInsert m.last_processed (k, p) t) (k, p)).getD 0 <
            m.debounce_seconds
          rw [hget, hw]
          simp only [Option.getD_some, not_lt]
          linarith)
    rw [h11]

theorem C6_witness :
    (should_process (should_process ⟨10, []⟩ (str "created") (str "/a.md") 100).2
        (str "created") (str "/a.md") (100 + 5)).1 = false ∧
    (should_process (should_process (should_process ⟨10, []⟩ (str "created") (str "/a.md") 100).2
        (str "created") (str "/a.md") (100 + 5)).2 (str "created") (str "/a.md")
        (100 + 11)).1 = true :=
  (C6_debounce ⟨10, []⟩ (str "created") (str "/a.md") 100 100 rfl).2.2
    (by norm_num [should_process, dictGet])

/-! ### Claim C4: the Integrity Verifier -/

theorem find_doc_by_serial_eq (w : Workspace) (hsn : (w.docs.map Prod.snd).Nodup)
    {p s : Str} (h : (p, s) ∈ w.docs) : find_doc_by_serial w s = some p := by
  obtain ⟨docs⟩ := w
  simp only [find_doc_by_serial]
  induction docs with
  | nil => simp at h
  | cons d docs ih =>
    obtain ⟨q, u⟩ := d
    simp only [List.map_cons, List.nodup_cons] at hsn
    rcases List.mem_cons.mp h with h1 | h1
    · have hq : p = q := congrArg Prod.fst h1
      have hu : s = u := congrArg Prod.snd h1
      subst hq
      subst hu
      rw [List.find?_cons_of_pos _ (by simp)]
      rfl
    · have hus : u ≠ s := by
        rintro rfl
        exact hsn.1 (List.mem_map.mpr ⟨(p, u), h1, rfl⟩)
      rw [List.find?_cons_of_neg _ (by simp [hus])]
      exact ih hsn.2 h1

theorem find_doc_by_serial_none (w : Workspace) {s : Str}
    (h : find_doc_by_serial w s = none) : ∀ d ∈ w.docs, d.2 ≠ s := by
  intro d hd
  simp only [find_doc_by_serial, Option.map_eq_none'] at h
  have := List.find?_eq_none.mp h d hd
  simpa using this

theorem verifier_step_stable (w : Workspace) (hsn : (w.docs.map Prod.snd).Nodup)
    (acc : List (Str × Str)) (e : Str × Str) (k v : Str)
    (h1 : find_doc_by_serial w k = some v) (h2 : dictGet acc k = some v) :
    dictGet (verifier_step w acc e) k = some v := by
  rw [verifier_step]
  cases hds : doc_serial_at w e.2 with
  | some s =>
    show dictGet (if s = e.1 then dictInsert acc e.1 e.2 else dictInsert acc s e.2) k = some v
    have hmemd : (e.2, s) ∈ w.docs := dictGet_mem hds
    have hfs : find_doc_by_serial w s = some e.2 := find_doc_by_serial_eq w hsn hmemd
    by_cases hsk : s = e.1
    · rw [if_pos hsk]
      by_cases hek : e.1 = k
      · subst hek
        rw [← hsk, hfs] at h1
        obtain rfl := Option.some.inj h1
        exact dictGet_insert_self _ _ _
      · rw [dictGet_insert_ne _ _ _ _ hek]
        exact h2
    · rw [if_neg hsk]
      by_cases hskk : s = k
      · subst hskk
        rw [hfs] at h1
        obtain rfl := Option.some.inj h1
        exact dictGet_insert_self _ _ _
      · rw [dictGet_insert_ne _ _ _ _ hskk]
        exact h2
  | none =>
    cases hfd : find_doc_by_serial w e.1 with
    | some q =>
      by_cases hek : e.1 = k
      · subst hek
        rw [h1] at hfd
        obtain rfl := Option.some.inj hfd
        exact dictGet_insert_self _ _ _
      · rw [dictGet_insert_ne _ _ _ _ hek]
        exact h2
    | none => exact h2

theorem verifier_fold_stable (w : Workspace) (hsn : (w.docs.map Prod.snd).Nodup) :
    ∀ (rest : List (Str × Str)) (acc : List (Str × Str)) (k v : Str),
      find_doc_by_serial w k = some v → dictGet acc k = some v →
      dictGet (rest.foldl (verifier_step w) acc) k = some v := by
  intro rest
  induction rest with
  | nil =>
    intro acc k v _ h2
    exact h2
  | cons e rest ih =>
    intro acc k v h1 h2
    simp only [List.foldl_cons]
    exact ih _ k v h1 (verifier_step_stable w hsn acc e k v h1 h2)

theorem verifier_step_none (w : Workspace) (acc : List (Str × Str)) (e : Str × Str) (k : Str)
    (h1 : find_doc_by_serial w k = none) (h2 : dictGet acc k = none) :
    dictGet (verifier_step w acc e) k = none := by
  rw [verifier_step]
  cases hds : doc_serial_at w e.2 with
  | some s =>
    show dictGet (if s = e.1 then dictInsert acc e.1 e.2 else dictInsert acc s e.2) k = none
    have hmemd : (e.2, s) ∈ w.docs := dictGet_mem hds
    have hsne : s ≠ k := by
      rintro rfl
      exact find_doc_by_serial_none w h1 (e.2, s) hmemd rfl
    by_cases hsk : s = e.1
    · rw [if_pos hsk]
      rw [dictGet_insert_ne _ _ _ _ (hsk ▸ hsne)]
      exact h2
    · rw [if_neg hsk, dictGet_insert_ne _ _ _ _ hsne]
      exact h2
  | none =>
    cases hfd : find_doc_by_serial w e.1 with
    | some q =>
      have he1 : e.1 ≠ k := by
        rintro rfl
        rw [h1] at hfd
        simp at hfd
      rw [dictGet_insert_ne _ _ _ _ he1]
      exact h2
    | none => exact h2

theorem verifier_fold_none (w : Workspace) :
    ∀ (rest : List (Str × Str)) (acc : List (Str × Str)) (k : Str),
      find_doc_by_serial w k = none → dictGet acc k = none →
      dictGet (rest.foldl (verifier_step w) acc) k = none := by
  intro rest
  induction rest with
  | nil =>
    intro acc k _ h2
    exact h2
  | cons e rest ih =>
    intro acc k h1 h2
    simp only [List.foldl_cons]
    exact ih _ k h1 (verifier_step_none w acc e k h1 h2)

/-- C4: one Integrity Verifier pass converges the index against the document
tree (serials unique in the tree).  An entry whose recorded path is missing
while some document carries its serial has its path updated to that document's
path; an entry whose document carries a different serial is re-keyed under the
document's actual serial with its path; an entry whose path is missing and
whose serial no document carries is deleted. -/
theorem C4_verifier_pass_converges (w : Workspace) (index : List (Str × Str))
    (hsn : (w.docs.map Prod.snd).Nodup) :
    (∀ k p p', (k, p) ∈ index → doc_serial_at w p = none →
      find_doc_by_serial w k = some p' → dictGet (verifier_pass w index) k = some p') ∧
    (∀ k p s, (k, p) ∈ index → doc_serial_at w p = some s → s ≠ k →
      dictGet (verifier_pass w index) s = some p) ∧
    (∀ k p, (k, p) ∈ index → doc_serial_at w p = none → find_doc_by_serial w k = none →
      dictGet (verifier_pass w index) k = none) := by
  refine ⟨?_, ?_, ?_⟩
  · intro k p p' hmem hds hfd
    obtain ⟨l1, l2, rfl⟩ := List.append_of_mem hmem
    rw [verifier_pass, List.foldl_append, List.foldl_cons]
    apply verifier_fold_stable w hsn l2 _ k p' hfd
    have hstep : verifier_step w (l1.foldl (verifier_step w) []) (k, p) =
        dictInsert (l1.foldl (verifier_step w) []) k p' := by
      rw [verifier_step]
      simp only [hds, hfd]
    rw [hstep]
    exact dictGet_insert_self _ _ _
  · intro k p s hmem hds hsk
    obtain ⟨l1, l2, rfl⟩ := List.append_of_mem hmem
    rw [verifier_pass, List.foldl_append, List.foldl_cons]
    have hmemd : (p, s) ∈ w.docs := dictGet_mem hds
    have hfs : find_doc_by_serial w s = some p := find_doc_by_serial_eq w hsn hmemd
    apply verifier_fold_stable w hsn l2 _ s p hfs
    have hstep : verifier_step w (l1.foldl (verifier_step w) []) (k, p) =
        dictInsert (l1.foldl (verifier_step w) []) s p := by
      rw [verifier_step]
      simp only [hds, if_neg hsk]
    rw [hstep]
    exact dictGet_insert_self _ _ _
  · intro k p hmem hds hfd
    rw [verifier_pass]
    exact verifier_fold_none w index [] k hfd (by simp [dictGet])

theorem C4_witness :
    dictGet (verifier_pass ⟨[(str "/b/x.md", str "sXserial")]⟩
      [(str "sXserial", str "/a/x.md")]) (str "sXserial") = some (str "/b/x.md") :=
  (C4_verifier_pass_converges ⟨[(str "/b/x.md", str "sXserial")]⟩
      [(str "sXserial", str "/a/x.md")] (by decide)).1
    (str "sXserial") (str "/a/x.md") (str "/b/x.md") (by decide) (by decide) (by decide)

/-! ### Claim C2: move consistency -/

theorem has_front_matter_of_get_existing {content : Str} {x : Str × Str}
    (h : get_existing_front_matter content = some x) : has_front_matter content = true := by
  by_cases hb : MARKER.isPrefixOf content
  · exact hb
  · rw [get_existing_front_matter, if_pos hb] at h
    simp at h

theorem exists_ok_of_ite {c : Prop} [Decidable c] (A B : Sys × Bool)
    (X : List (Str × Str)) (Y : List Str)
    (hA : A.1.index = X) (hB : B.1.index = X) (hA2 : A.1.assets = Y) (hB2 : B.1.assets = Y) :
    ∃ S' m', (if c then (Except.ok A : Except PyErr (Sys × Bool)) else .ok B) = .ok (S', m') ∧
      S'.index = X ∧ S'.assets = Y := by
  by_cases h : c
  · exact ⟨A.1, A.2, by rw [if_pos h], hA, hA2⟩
  · exact ⟨B.1, B.2, by rw [if_neg h], hB, hB2⟩

theorem index_or_update_file_upsert (workspace_path file_path content : Str) (S : Sys)
    (fresh : Str) (fm rem s fileRel : Str)
    (hfile : dictGet S.files file_path = some content)
    (hin : inside_workspace workspace_path file_path = true)
    (hmd : (str ".md").isSuffixOf file_path = true)
    (hpre : workspace_path.isPrefixOf file_path = true)
    (hex : get_existing_front_matter content = some (fm, rem))
    (hser : extract_serial_from_front_matter fm = some s)
    (hfrel : calculate_file_relative_path workspace_path file_path = .ok fileRel) :
    ∃ S' modified,
      index_or_update_file workspace_path file_path true S fresh = .ok (S', modified) ∧
      S'.index = dictInsert S.index s fileRel ∧ S'.assets = S.assets := by
  rw [index_or_update_file, if_neg (by simp), if_neg (by simp [hfile]), if_neg (by simp [hin]),
    if_neg (by simp [hmd])]
  obtain ⟨r, hr⟩ := calculate_relative_path_ok workspace_path file_path hpre
  have hfm : has_front_matter content = true := has_front_matter_of_get_existing hex
  simp only [add_front_matter_to_file, hfile, hr, hfm, hex, hser, if_true, update_index, hfrel]
  split
  · exact exists_ok_of_ite _ _ _ _ rfl rfl rfl rfl
  · exact exists_ok_of_ite _ _ _ _ rfl rfl rfl rfl

/-- C2: after handle_moved for a document indexed at the source's relative path
under serial s whose content (and header serial) is unchanged by the move, the
Index holds no entry whose path is the source's relative path, and exactly one
entry whose path is the destination's relative path, keyed by the same s. -/
theorem C2_move_consistency (workspace_path src_path dest_path content : Str) (S : Sys)
    (H : Handler) (now : ℚ) (fresh : Str) (fm rem s srcRel dstRel : Str)
    (hb1 : (str "~.md").isSuffixOf (basename dest_path) = false)
    (hb2 : (str ".md").isSuffixOf dest_path = true)
    (hb3 : should_skip_file dest_path = false)
    (hsrcRel : calculate_file_relative_path workspace_path src_path = .ok srcRel)
    (hdstRel : calculate_file_relative_path workspace_path dest_path = .ok dstRel)
    (hin : inside_workspace workspace_path dest_path = true)
    (hpre : workspace_path.isPrefixOf dest_path = true)
    (hfile : dictGet S.files dest_path = some content)
    (hex : get_existing_front_matter content = some (fm, rem))
    (hser : extract_serial_from_front_matter fm = some s)
    (hidx : (s, srcRel) ∈ S.index)
    (hnd : (S.index.map Prod.fst).Nodup)
    (hnodst : ∀ kv ∈ S.index, kv.2 ≠ dstRel)
    (hne : srcRel ≠ dstRel) :
    ((handle_moved workspace_path src_path dest_path true S H now fresh).1.index.filter
      (fun kv => kv.2 = srcRel)) = [] ∧
    ((handle_moved workspace_path src_path dest_path true S H now fresh).1.index.filter
      (fun kv => kv.2 = dstRel)) = [(s, dstRel)] := by
  obtain ⟨S1, removed, heq, hidx1, hass1, hrem1, hfiles1⟩ :=
    remove_from_index_spec workspace_path src_path S srcRel hsrcRel hnd
  obtain ⟨S2, modified, hequ, hidx2, hass2⟩ :=
    index_or_update_file_upsert workspace_path dest_path content S1 fresh fm rem s dstRel
      (hfiles1 ▸ hfile) hin hb2 hpre hex hser hdstRel
  have hstate : (handle_moved workspace_path src_path dest_path true S H now fresh).1 = S2 := by
    rw [handle_moved, if_neg (by simp [hb1]), if_neg (by simp [hb2]), if_neg (by simp [hb3]),
      heq]
    simp only [hequ]
  rw [hstate, hidx2]
  have hsout : s ∉ S1.index.map Prod.fst := by
    intro hmem
    obtain ⟨kv, hkv, hfst⟩ := List.mem_map.mp hmem
    obtain ⟨q, hq⟩ : ∃ q, kv = (s, q) := ⟨kv.2, by rw [← hfst]⟩
    subst hq
    have h1 := (hidx1 _).mp hkv
    exact h1.2 (eq_snd_of_mem_keys_nodup hnd h1.1 hidx)
  rw [dictInsert_of_not_mem dstRel hsout, List.filter_append, List.filter_append]
  constructor
  · have h1 : S1.index.filter (fun kv => kv.2 = srcRel) = [] := by
      rw [List.filter_eq_nil_iff]
      intro kv hkv
      have := (hidx1 kv).mp hkv
      simp [this.2]
    rw [h1]
    simp [hne.symm]
  · have h1 : S1.index.filter (fun kv => kv.2 = dstRel) = [] := by
      rw [List.filter_eq_nil_iff]
      intro kv hkv
      have := (hidx1 kv).mp hkv
      simp [hnodst kv this.1]
    rw [h1]
    simp

theorem C2_witness :
    ((handle_moved (str "/w") (str "/w/a/x.md") (str "/w/b/x.md") true
        ⟨[(str "/w/b/x.md",
            str "---\nserial: sabcdefg\ntypora-root-url: ../\ntypora-copy-images-to: ../.assets/s/sabcdefg\n---\n\nbody")],
          [(str "sabcdefg", str "/a/x.md")], []⟩
        ⟨⟨10, []⟩, []⟩ 100 (str "tfreshse")).1.index.filter
      (fun kv => kv.2 = str "/a/x.md")) = [] ∧
    ((handle_moved (str "/w") (str "/w/a/x.md") (str "/w/b/x.md") true
        ⟨[(str "/w/b/x.md",
            str "---\nserial: sabcdefg\ntypora-root-url: ../\ntypora-copy-images-to: ../.assets/s/sabcdefg\n---\n\nbody")],
          [(str "sabcdefg", str "/a/x.md")], []⟩
        ⟨⟨10, []⟩, []⟩ 100 (str "tfreshse")).1.index.filter
      (fun kv => kv.2 = str "/b/x.md")) = [(str "sabcdefg", str "/b/x.md")] :=
  C2_move_consistency (str "/w") (str "/w/a/x.md") (str "/w/b/x.md")
    (str "---\nserial: sabcdefg\ntypora-root-url: ../\ntypora-copy-images-to: ../.assets/s/sabcdefg\n---\n\nbody")
    ⟨[(str "/w/b/x.md",
        str "---\nserial: sabcdefg\ntypora-root-url: ../\ntypora-copy-images-to: ../.assets/s/sabcdefg\n---\n\nbody")],
      [(str "sabcdefg", str "/a/x.md")], []⟩
    ⟨⟨10, []⟩, []⟩ 100 (str "tfreshse")
    (str "---\nserial: sabcdefg\ntypora-root-url: ../\ntypora-copy-images-to: ../.assets/s/sabcdefg\n---")
    (str "body") (str "sabcdefg") (str "/a/x.md") (str "/b/x.md")
    (by decide) (by decide) (by decide) (by rfl) (by rfl) (by decide) (by decide)
    (by decide) (by decide) (by decide) (by decide) (by decide) (by decide) (by decide)

/-! ### Claims C8 and C5: supporting lemmas -/

theorem calculate_file_relative_path_ok (workspace_path file_path : Str)
    (hpre : workspace_path.isPrefixOf file_path = true) :
    ∃ rel, calculate_file_relative_path workspace_path file_path = .ok rel := by
  rw [calculate_file_relative_path, if_neg (by simp [hpre])]
  exact ⟨_, rfl⟩

theorem calc_rel_chars {workspace_path file_path r : Str}
    (hr : calculate_relative_path workspace_path file_path = .ok r) :
    ∀ c ∈ r, c = '.' ∨ c = '/' := by
  rw [calculate_relative_path] at hr
  by_cases hp : workspace_path.isPrefixOf file_path
  · rw [if_neg (by simp [hp])] at hr
    simp only [] at hr
    split at hr
    · obtain rfl := Except.ok.inj hr
      intro c hc
      simp at hc
    · obtain rfl := Except.ok.inj hr
      intro c hc
      rw [List.mem_flatten] at hc
      obtain ⟨l, hl, hcl⟩ := hc
      rw [List.eq_of_mem_replicate hl] at hcl
      have h3 : c = '.' ∨ c = '.' ∨ c = '/' := by
        rw [show str "../" = ['.', '.', '/'] from rfl] at hcl
        simpa using hcl
      rcases h3 with rfl | rfl | rfl
      · exact Or.inl rfl
      · exact Or.inl rfl
      · exact Or.inr rfl
  · rw [if_pos (by simp [hp])] at hr
    simp at hr

theorem clean_of_chars {v : Str} (h : ∀ c ∈ v, isPySpace c = false) : pyStrip v = v := by
  refine pyStrip_eq_self_of v (fun c hc => ?_) (fun c hc => ?_)
  · exact h c (List.mem_of_mem_head? hc)
  · exact h c (List.mem_of_mem_getLast? hc)

theorem rel_chars_clean {r : Str} (hrc : ∀ c ∈ r, c = '.' ∨ c = '/') :
    pyStrip r = r ∧ '\n' ∉ r := by
  constructor
  · refine clean_of_chars (fun c hc => ?_)
    rcases hrc c hc with rfl | rfl <;> decide
  · intro hmem
    rcases hrc _ hmem with h | h <;> simp at h

theorem extract_serial_clean {fm s : Str} (h : extract_serial_from_front_matter fm = some s) :
    pyStrip s = s ∧ s ≠ [] ∧ '\n' ∉ s ∧
      dictGet (parse_front_matter fm) (str "serial") = some s := by
  rw [extract_serial_from_front_matter] at h
  by_cases hc : ((dictGet (parse_front_matter fm) (str "serial")).getD []) ≠ [] ∧
      pyStrip ((dictGet (parse_front_matter fm) (str "serial")).getD []) ≠ []
  · rw [if_pos hc] at h
    obtain rfl := Option.some.inj h
    cases hg : dictGet (parse_front_matter fm) (str "serial") with
    | none =>
      rw [hg] at hc
      simp at hc
    | some v =>
      rw [hg] at hc
      simp only [Option.getD_some] at hc ⊢
      have hmem := dictGet_mem hg
      have hcf := parse_fields_clean fm _ hmem
      exact ⟨hcf.2.1, hc.1, hcf.2.2.2.2, by simp⟩
  · rw [if_neg hc] at h
    simp at h

theorem dictInsert_ne_nil {κ ν : Type} [DecidableEq κ] (d : List (κ × ν)) (k : κ) (v : ν) :
    dictInsert d k v ≠ [] := by
  cases d with
  | nil => simp [dictInsert]
  | cons kv d =>
    obtain ⟨a, b⟩ := kv
    by_cases h : a = k
    · subst h
      rw [dictInsert_cons_self]
      simp
    · rw [dictInsert_cons_ne _ _ _ _ _ h]
      simp

theorem copy_to_if_eq (r u s : Str) :
    (if r ≠ [] then r ++ str ".assets/" ++ u ++ '/' :: s else str ".assets/" ++ u ++ '/' :: s)
      = r ++ str ".assets/" ++ u ++ '/' :: s := by
  by_cases h : r = []
  · subst h
    simp
  · rw [if_pos h]

theorem copy_value_clean (r es : Str) (hrc : ∀ c ∈ r, c = '.' ∨ c = '/')
    (hes : pyStrip es = es) (hene : es ≠ []) (henl : '\n' ∉ es) :
    pyStrip (r ++ str ".assets/" ++ List.take 1 es ++ '/' :: es)
      = r ++ str ".assets/" ++ List.take 1 es ++ '/' :: es ∧
    '\n' ∉ (r ++ str ".assets/" ++ List.take 1 es ++ '/' :: es) := by
  constructor
  · refine pyStrip_eq_self_of _ (fun c hc => ?_) (fun c hc => ?_)
    · cases r with
      | nil =>
        have h2 : '.' = c := by
          rw [show str ".assets/" = '.' :: str "assets/" from rfl] at hc
          simpa using hc
        subst h2
        decide
      | cons a r' =>
        have h2 : a = c := by simpa using hc
        subst h2
        rcases hrc a (by simp) with rfl | rfl <;> decide
    · have hlast : (r ++ str ".assets/" ++ List.take 1 es ++ '/' :: es).getLast? =
          es.getLast? := by
        rw [List.getLast?_append]
        rw [show ('/' :: es : Str) = ['/'] ++ es from rfl, List.getLast?_append]
        cases hgl : es.getLast? with
        | none => exact absurd (List.getLast?_eq_none_iff.mp hgl) hene
        | some x => rfl
      rw [hlast] at hc
      exact pyStrip_getLast_of_eq_self hes c hc
  · intro hmem
    rcases List.mem_append.mp hmem with h | h
    · rcases List.mem_append.mp h with h | h
      · rcases List.mem_append.mp h with h | h
        · rcases hrc _ h with h2 | h2 <;> simp at h2
        · exact absurd h (by decide)
      · exact henl (List.take_subset 1 es h)
    · rcases List.mem_cons.mp h with h | h
      · simp at h
      · exact henl h

theorem cleanFields_insert {d : List (Str × Str)} {k v : Str} (hd : cleanFields d)
    (hkv : cleanField (k, v)) : cleanFields (dictInsert d k v) := by
  intro kv hmem
  rcases mem_dictInsert hmem with h | h
  · exact hd kv h
  · rw [h]
    exact hkv

theorem markerFree_insert {d : List (Str × Str)} {k : Str} (v : Str)
    (hd : ∀ kv ∈ d, ¬ MARKER <+: kv.1) (hk : ¬ MARKER <+: k) :
    ∀ kv ∈ dictInsert d k v, ¬ MARKER <+: kv.1 := by
  intro kv hmem
  rcases mem_dictInsert hmem with h | h
  · exact hd kv h
  · rw [h]
    exact hk

theorem filter_unrecog_dictInsert (d : List (Str × Str)) (k v : Str)
    (hk : k ∈ recognized_keys) :
    (dictInsert d k v).filter (fun kv => kv.1 ∉ recognized_keys) =
      d.filter (fun kv => kv.1 ∉ recognized_keys) := by
  induction d with
  | nil =>
    simp only [dictInsert]
    rw [List.filter_cons, if_neg (by simp [hk])]
  | cons kv d ih =>
    obtain ⟨a, b⟩ := kv
    by_cases h : a = k
    · subst h
      rw [dictInsert_cons_self, List.filter_cons, List.filter_cons]
      by_cases ha : a ∈ recognized_keys
      · rw [if_neg (by simp [ha]), if_neg (by simp [ha])]
      · exact absurd hk ha
    · rw [dictInsert_cons_ne _ _ _ _ _ h, List.filter_cons, List.filter_cons]
      by_cases ha : a ∈ recognized_keys
      · rw [if_neg (by simp [ha]), if_neg (by simp [ha]), ih]
      · rw [if_pos (by simp [ha]), if_pos (by simp [ha]), ih]

theorem has_front_matter_build (d : List (Str × Str)) (hne : d ≠ []) (x : Str) :
    has_front_matter (build_front_matter d ++ x) = true := by
  rw [has_front_matter, build_front_matter_decompose d hne, List.isPrefixOf_iff_prefix,
    List.append_assoc]
  exact List.prefix_append _ _

theorem no_newline_of_cleanFields {d : List (Str × Str)} (h : cleanFields d) :
    ∀ kv ∈ d, '\n' ∉ kv.1 ∧ '\n' ∉ kv.2 :=
  fun kv hm => ⟨(h kv hm).2.2.2.1, (h kv hm).2.2.2.2⟩

theorem cleanField_mk {k v : Str} (h1 : pyStrip k = k) (h2 : pyStrip v = v)
    (h3 : ':' ∉ k) (h4 : '\n' ∉ k) (h5 : '\n' ∉ v) : cleanField (k, v) :=
  ⟨h1, h2, h3, h4, h5⟩

theorem urls_insert_shape (d : List (Str × Str)) (r es : Str)
    (hnd : (d.map Prod.fst).Nodup) (hcl : cleanFields d)
    (hmf : ∀ kv ∈ d, ¬ MARKER <+: kv.1)
    (hrc : ∀ c ∈ r, c = '.' ∨ c = '/')
    (hes : pyStrip es = es) (hene : es ≠ []) (henl : '\n' ∉ es) :
    (((dictInsert (dictInsert d (str "typora-root-url") r) (str "typora-copy-images-to")
        (r ++ str ".assets/" ++ List.take 1 es ++ '/' :: es)).map Prod.fst).Nodup ∧
      cleanFields (dictInsert (dictInsert d (str "typora-root-url") r)
        (str "typora-copy-images-to")
        (r ++ str ".assets/" ++ List.take 1 es ++ '/' :: es))) ∧
    ∀ kv ∈ dictInsert (dictInsert d (str "typora-root-url") r)
        (str "typora-copy-images-to")
        (r ++ str ".assets/" ++ List.take 1 es ++ '/' :: es), ¬ MARKER <+: kv.1 := by
  obtain ⟨hrs, hrnl⟩ := rel_chars_clean hrc
  obtain ⟨hcs, hcnl⟩ := copy_value_clean r es hrc hes hene henl
  refine ⟨⟨?_, ?_⟩, ?_⟩
  · exact nodup_keys_dictInsert _ _ (nodup_keys_dictInsert _ _ hnd)
  · refine cleanFields_insert (cleanFields_insert hcl ?_) ?_
    · exact cleanField_mk (by decide) hrs (by decide) (by decide) hrnl
    · exact cleanField_mk (by decide) hcs (by decide) (by decide) hcnl
  · exact markerFree_insert _ (markerFree_insert _ hmf (by decide)) (by decide)

/-- C8: for every header update performed by index_or_update_file on a document
with an existing well-terminated header whose field keys do not begin with the
marker, every unrecognized field (any key other than serial, typora-root-url
and typora-copy-images-to) of the old header is present verbatim, in its
original position, in the header of the resulting file: the ordered
unrecognized sublists of the two parsed field maps coincide. -/
theorem C8_unrecognized_fields_preserved (workspace_path file_path content : Str)
    (S : Sys) (fresh : Str) (fm rem : Str)
    (hfile : dictGet S.files file_path = some content)
    (hin : inside_workspace workspace_path file_path = true)
    (hmd : (str ".md").isSuffixOf file_path = true)
    (hpre : workspace_path.isPrefixOf file_path = true)
    (hex : get_existing_front_matter content = some (fm, rem))
    (hmf : ∀ kv ∈ parse_front_matter fm, ¬ MARKER <+: kv.1)
    (hf1 : pyStrip fresh = fresh) (hf2 : fresh ≠ []) (hf3 : '\n' ∉ fresh) :
    ∃ S' modified c' nfm nrem,
      index_or_update_file workspace_path file_path true S fresh = .ok (S', modified) ∧
      dictGet S'.files file_path = some c' ∧
      get_existing_front_matter c' = some (nfm, nrem) ∧
      (parse_front_matter nfm).filter (fun kv => kv.1 ∉ recognized_keys) =
        (parse_front_matter fm).filter (fun kv => kv.1 ∉ recognized_keys) := by
  obtain ⟨r, hr⟩ := calculate_relative_path_ok workspace_path file_path hpre
  obtain ⟨frel, hfrel⟩ := calculate_file_relative_path_ok workspace_path file_path hpre
  have hfm2 : has_front_matter content = true := has_front_matter_of_get_existing hex
  have hrc := calc_rel_chars hr
  rw [index_or_update_file, if_neg (by simp), if_neg (by simp [hfile]), if_neg (by simp [hin]),
    if_neg (by simp [hmd])]
  simp only [add_front_matter_to_file, hfile, hfm2, hr, hex, if_true, update_index, hfrel]
  cases hser : extract_serial_from_front_matter fm with
  | some es =>
    obtain ⟨hess, hesne, hesnl, hesget⟩ := extract_serial_clean hser
    simp only [copy_to_if_eq]
    obtain ⟨⟨hnd2, hcl2⟩, hmk2⟩ :=
      urls_insert_shape (parse_front_matter fm) r es (parse_fields_nodup fm)
        (parse_fields_clean fm) hmf hrc hess hesne hesnl
    by_cases hurl :
        dictGet (parse_front_matter fm) (str "typora-root-url") = some r ∧
        dictGet (parse_front_matter fm) (str "typora-copy-images-to") =
          some (r ++ str ".assets/" ++ List.take 1 es ++ '/' :: es)
    · rw [if_pos hurl]
      exact ⟨_, false, content, fm, rem, rfl, hfile, hex, rfl⟩
    · rw [if_neg hurl]
      refine ⟨_, true,
        build_front_matter (dictInsert (dictInsert (parse_front_matter fm)
            (str "typora-root-url") r) (str "typora-copy-images-to")
            (r ++ str ".assets/" ++ List.take 1 es ++ '/' :: es)) ++ '\n' :: '\n' :: rem,
        build_front_matter (dictInsert (dictInsert (parse_front_matter fm)
            (str "typora-root-url") r) (str "typora-copy-images-to")
            (r ++ str ".assets/" ++ List.take 1 es ++ '/' :: es)),
        pyLStripNl rem, rfl, dictGet_insert_self _ _ _, ?_, ?_⟩
      · exact get_existing_of_build _ (dictInsert_ne_nil _ _ _)
          (no_newline_of_cleanFields hcl2) hmk2 rem
      · rw [parse_build _ hnd2 hcl2,
          filter_unrecog_dictInsert _ _ _ (by decide),
          filter_unrecog_dictInsert _ _ _ (by decide)]
  | none =>
    simp only [copy_to_if_eq]
    have hcl1 : cleanFields (dictInsert (parse_front_matter fm) (str "serial") fresh) :=
      cleanFields_insert (parse_fields_clean fm)
        (cleanField_mk (by decide) hf1 (by decide) (by decide) hf3)
    have hnd1 :
        ((dictInsert (parse_front_matter fm) (str "serial") fresh).map Prod.fst).Nodup :=
      nodup_keys_dictInsert _ _ (parse_fields_nodup fm)
    have hmf1 : ∀ kv ∈ dictInsert (parse_front_matter fm) (str "serial") fresh,
        ¬ MARKER <+: kv.1 := markerFree_insert _ hmf (by decide)
    obtain ⟨⟨hnd2, hcl2⟩, hmk2⟩ :=
      urls_insert_shape _ r fresh hnd1 hcl1 hmf1 hrc hf1 hf2 hf3
    refine ⟨_, true,
      build_front_matter (dictInsert (dictInsert (dictInsert (parse_front_matter fm)
          (str "serial") fresh) (str "typora-root-url") r) (str "typora-copy-images-to")
          (r ++ str ".assets/" ++ List.take 1 fresh ++ '/' :: fresh)) ++ '\n' :: '\n' :: rem,
      build_front_matter (dictInsert (dictInsert (dictInsert (parse_front_matter fm)
          (str "serial") fresh) (str "typora-root-url") r) (str "typora-copy-images-to")
          (r ++ str ".assets/" ++ List.take 1 fresh ++ '/' :: fresh)),
      pyLStripNl rem, rfl, dictGet_insert_self _ _ _, ?_, ?_⟩
    · exact get_existing_of_build _ (dictInsert_ne_nil _ _ _)
        (no_newline_of_cleanFields hcl2) hmk2 rem
    · rw [parse_build _ hnd2 hcl2,
        filter_unrecog_dictInsert _ _ _ (by decide),
        filter_unrecog_dictInsert _ _ _ (by decide),
        filter_unrecog_dictInsert _ _ _ (by decide)]

theorem C8_witness :
    ∃ S' modified c' nfm nrem,
      index_or_update_file (str "/w") (str "/w/x.md") true
        ⟨[(str "/w/x.md", str "---\nserial: sabcdefg\nauthor: me\n---\n\nbody")], [], []⟩
        (str "tfreshse") = .ok (S', modified) ∧
      dictGet S'.files (str "/w/x.md") = some c' ∧
      get_existing_front_matter c' = some (nfm, nrem) ∧
      (parse_front_matter nfm).filter (fun kv => kv.1 ∉ recognized_keys) =
        (parse_front_matter (str "---\nserial: sabcdefg\nauthor: me\n---")).filter
          (fun kv => kv.1 ∉ recognized_keys) :=
  C8_unrecognized_fields_preserved (str "/w") (str "/w/x.md")
    (str "---\nserial: sabcdefg\nauthor: me\n---\n\nbody")
    ⟨[(str "/w/x.md", str "---\nserial: sabcdefg\nauthor: me\n---\n\nbody")], [], []⟩
    (str "tfreshse") (str "---\nserial: sabcdefg\nauthor: me\n---") (str "body")
    (by decide) (by decide) (by decide) (by decide) (by decide) (by decide)
    (by decide) (by decide) (by decide)

/-! ### Claim C5: supporting lemmas -/

theorem dictInsert_idem {κ ν : Type} [DecidableEq κ] (d : List (κ × ν)) (k : κ) (v : ν) :
    dictInsert (dictInsert d k v) k v = dictInsert d k v := by
  induction d with
  | nil =>
    rw [show (dictInsert [] k v : List (κ × ν)) = [(k, v)] from rfl, dictInsert_cons_self]
  | cons kv d ih =>
    obtain ⟨a, b⟩ := kv
    by_cases h : a = k
    · subst h
      rw [dictInsert_cons_self, dictInsert_cons_self]
    · rw [dictInsert_cons_ne _ _ _ _ _ h, dictInsert_cons_ne _ _ _ _ _ h, ih]

theorem filter_key_dictInsert {κ ν : Type} [DecidableEq κ] (d : List (κ × ν)) (k : κ) (v : ν)
    (hnd : (d.map Prod.fst).Nodup) :
    (dictInsert d k v).filter (fun kv => kv.1 = k) = [(k, v)] := by
  induction d with
  | nil => simp [dictInsert]
  | cons kv d ih =>
    obtain ⟨a, b⟩ := kv
    rw [List.map_cons, List.nodup_cons] at hnd
    by_cases h : a = k
    · subst h
      rw [dictInsert_cons_self, List.filter_cons, if_pos (by simp)]
      have hnil : d.filter (fun kv => kv.1 = a) = [] := by
        rw [List.filter_eq_nil_iff]
        intro kv hkv hdec
        refine hnd.1 ?_
        rw [List.mem_map]
        exact ⟨kv, hkv, by simpa using hdec⟩
      rw [hnil]
    · rw [dictInsert_cons_ne _ _ _ _ _ h, List.filter_cons, if_neg (by simpa using h),
        ih hnd.2]

theorem match_branch_noop (workspace_path file_path content : Str) (S1 : Sys) (fresh' : Str)
    (fm rem es r frel : Str)
    (hfile : dictGet S1.files file_path = some content)
    (hin : inside_workspace workspace_path file_path = true)
    (hmd : (str ".md").isSuffixOf file_path = true)
    (hr : calculate_relative_path workspace_path file_path = .ok r)
    (hfrel : calculate_file_relative_path workspace_path file_path = .ok frel)
    (hex : get_existing_front_matter content = some (fm, rem))
    (hser : extract_serial_from_front_matter fm = some es)
    (hurl : dictGet (parse_front_matter fm) (str "typora-root-url") = some r)
    (hcopy : dictGet (parse_front_matter fm) (str "typora-copy-images-to") =
      some (r ++ str ".assets/" ++ List.take 1 es ++ '/' :: es)) :
    index_or_update_file workspace_path file_path true S1 fresh' =
      .ok ({S1 with index := dictInsert S1.index es frel}, false) := by
  have hfm2 : has_front_matter content = true := has_front_matter_of_get_existing hex
  rw [index_or_update_file, if_neg (by simp), if_neg (by simp [hfile]), if_neg (by simp [hin]),
    if_neg (by simp [hmd])]
  simp only [add_front_matter_to_file, hfile, hfm2, hr, hex, hser, if_true, update_index,
    hfrel, copy_to_if_eq]
  rw [if_pos ⟨hurl, hcopy⟩]

theorem second_call_noop (workspace_path file_path : Str) (S1 : Sys) (fresh' : Str)
    (fields2 : List (Str × Str)) (body es r frel : Str)
    (hfile : dictGet S1.files file_path =
      some (build_front_matter fields2 ++ '\n' :: '\n' :: body))
    (hin : inside_workspace workspace_path file_path = true)
    (hmd : (str ".md").isSuffixOf file_path = true)
    (hr : calculate_relative_path workspace_path file_path = .ok r)
    (hfrel : calculate_file_relative_path workspace_path file_path = .ok frel)
    (hnd : (fields2.map Prod.fst).Nodup) (hcl : cleanFields fields2)
    (hmk : ∀ kv ∈ fields2, ¬ MARKER <+: kv.1) (hne : fields2 ≠ [])
    (hser : dictGet fields2 (str "serial") = some es)
    (hesne : es ≠ []) (hess : pyStrip es = es)
    (hurl : dictGet fields2 (str "typora-root-url") = some r)
    (hcopy : dictGet fields2 (str "typora-copy-images-to") =
      some (r ++ str ".assets/" ++ List.take 1 es ++ '/' :: es)) :
    index_or_update_file workspace_path file_path true S1 fresh' =
      .ok ({S1 with index := dictInsert S1.index es frel}, false) := by
  have hex := get_existing_of_build fields2 hne (no_newline_of_cleanFields hcl) hmk body
  have hparse := parse_build fields2 hnd hcl
  have hser2 : extract_serial_from_front_matter (build_front_matter fields2) = some es := by
    simp only [extract_serial_from_front_matter, hparse, hser, Option.getD_some]
    rw [if_pos ⟨hesne, by rw [hess]; exact hesne⟩]
  exact match_branch_noop workspace_path file_path _ S1 fresh' _ _ es r frel hfile hin hmd
    hr hfrel hex hser2 (by rw [hparse]; exact hurl) (by rw [hparse]; exact hcopy)

/-- C5: running index_or_update_file twice in succession on a document that
does not change between the calls (no front matter at all, or a well-terminated
header whose keys are marker-free) performs no second write: the second call
returns the first call's state unchanged with modified = false, for any fresh
serial, and the resulting Index holds exactly one entry for the document's
serial. -/
theorem C5_created_path_idempotent (workspace_path file_path content : Str)
    (S : Sys) (fresh : Str)
    (hfile : dictGet S.files file_path = some content)
    (hin : inside_workspace workspace_path file_path = true)
    (hmd : (str ".md").isSuffixOf file_path = true)
    (hpre : workspace_path.isPrefixOf file_path = true)
    (hnd : (S.index.map Prod.fst).Nodup)
    (hwf : has_front_matter content = false ∨
      ∃ fm rem, get_existing_front_matter content = some (fm, rem) ∧
        ∀ kv ∈ parse_front_matter fm, ¬ MARKER <+: kv.1)
    (hf1 : pyStrip fresh = fresh) (hf2 : fresh ≠ []) (hf3 : '\n' ∉ fresh) :
    ∃ S1 m1 s frel,
      index_or_update_file workspace_path file_path true S fresh = .ok (S1, m1) ∧
      (∀ fresh', index_or_update_file workspace_path file_path true S1 fresh' =
        .ok (S1, false)) ∧
      S1.index.filter (fun kv => kv.1 = s) = [(s, frel)] := by
  obtain ⟨r, hr⟩ := calculate_relative_path_ok workspace_path file_path hpre
  obtain ⟨frel, hfrel⟩ := calculate_file_relative_path_ok workspace_path file_path hpre
  have hrc := calc_rel_chars hr
  obtain ⟨hrs, hrnl⟩ := rel_chars_clean hrc
  rcases hwf with hnofm | ⟨fm, rem, hex, hmf⟩
  · have hcv := copy_value_clean r fresh hrc hf1 hf2 hf3
    have hnd3 : (([(str "serial", fresh), (str "typora-root-url", r),
        (str "typora-copy-images-to",
          r ++ str ".assets/" ++ List.take 1 fresh ++ '/' :: fresh)] :
        List (Str × Str)).map Prod.fst).Nodup := by
      show ([str "serial", str "typora-root-url", str "typora-copy-images-to"] :
        List Str).Nodup
      decide
    have hcl3 : cleanFields [(str "serial", fresh), (str "typora-root-url", r),
        (str "typora-copy-images-to",
          r ++ str ".assets/" ++ List.take 1 fresh ++ '/' :: fresh)] := by
      intro kv hm
      rcases List.mem_cons.mp hm with rfl | hm
      · exact cleanField_mk (by decide) hf1 (by decide) (by decide) hf3
      rcases List.mem_cons.mp hm with rfl | hm
      · exact cleanField_mk (by decide) hrs (by decide) (by decide) hrnl
      rcases List.mem_cons.mp hm with rfl | hm
      · exact cleanField_mk (by decide) hcv.1 (by decide) (by decide) hcv.2
      · simp at hm
    have hmk3 : ∀ kv ∈ ([(str "serial", fresh), (str "typora-root-url", r),
        (str "typora-copy-images-to",
          r ++ str ".assets/" ++ List.take 1 fresh ++ '/' :: fresh)] :
        List (Str × Str)), ¬ MARKER <+: kv.1 := by
      intro kv hm
      rcases List.mem_cons.mp hm with rfl | hm
      · show ¬ MARKER <+: str "serial"
        decide
      rcases List.mem_cons.mp hm with rfl | hm
      · show ¬ MARKER <+: str "typora-root-url"
        decide
      rcases List.mem_cons.mp hm with rfl | hm
      · show ¬ MARKER <+: str "typora-copy-images-to"
        decide
      · simp at hm
    refine ⟨⟨dictInsert S.files file_path
        (build_front_matter [(str "serial", fresh), (str "typora-root-url", r),
          (str "typora-copy-images-to",
            r ++ str ".assets/" ++ List.take 1 fresh ++ '/' :: fresh)] ++
          '\n' :: '\n' :: content),
      dictInsert S.index fresh frel, S.assets⟩, true, fresh, frel, ?_,
      fun fresh' => ?_, ?_⟩
    · rw [index_or_update_file, if_neg (by simp), if_neg (by simp [hfile]),
        if_neg (by simp [hin]), if_neg (by simp [hmd])]
      simp only [add_front_matter_to_file, hfile, hr]
      rw [if_neg (by simp [hnofm])]
      simp only [create_front_matter, copy_to_if_eq, update_index, hfrel]
    · have h2 := second_call_noop workspace_path file_path
        ⟨dictInsert S.files file_path
            (build_front_matter [(str "serial", fresh), (str "typora-root-url", r),
              (str "typora-copy-images-to",
                r ++ str ".assets/" ++ List.take 1 fresh ++ '/' :: fresh)] ++
              '\n' :: '\n' :: content),
          dictInsert S.index fresh frel, S.assets⟩ fresh'
        [(str "serial", fresh), (str "typora-root-url", r),
          (str "typora-copy-images-to",
            r ++ str ".assets/" ++ List.take 1 fresh ++ '/' :: fresh)]
        content fresh r frel (dictGet_insert_self _ _ _) hin hmd hr hfrel
        hnd3 hcl3 hmk3 (by simp) (dictGet_cons_self _ _ _) hf2 hf1
        (by rw [dictGet_cons_ne _ _ _ _ (by decide)]; exact dictGet_cons_self _ _ _)
        (by rw [dictGet_cons_ne _ _ _ _ (by decide), dictGet_cons_ne _ _ _ _ (by decide)]
            exact dictGet_cons_self _ _ _)
      rw [h2]
      simp only [dictInsert_idem]
    · exact filter_key_dictInsert S.index fresh frel hnd
  · cases hser : extract_serial_from_front_matter fm with
    | some es =>
      obtain ⟨hess, hesne, hesnl, hesget⟩ := extract_serial_clean hser
      by_cases hurl : dictGet (parse_front_matter fm) (str "typora-root-url") = some r ∧
          dictGet (parse_front_matter fm) (str "typora-copy-images-to") =
            some (r ++ str ".assets/" ++ List.take 1 es ++ '/' :: es)
      · refine ⟨⟨S.files, dictInsert S.index es frel, S.assets⟩, false, es, frel, ?_,
          fun fresh' => ?_, ?_⟩
        · exact match_branch_noop workspace_path file_path content S fresh fm rem es r frel
            hfile hin hmd hr hfrel hex hser hurl.1 hurl.2
        · have h2 := match_branch_noop workspace_path file_path content
            ⟨S.files, dictInsert S.index es frel, S.assets⟩ fresh' fm rem es r frel
            hfile hin hmd hr hfrel hex hser hurl.1 hurl.2
          rw [h2]
          simp only [dictInsert_idem]
        · exact filter_key_dictInsert S.index es frel hnd
      · obtain ⟨⟨hnd2, hcl2⟩, hmk2⟩ :=
          urls_insert_shape (parse_front_matter fm) r es (parse_fields_nodup fm)
            (parse_fields_clean fm) hmf hrc hess hesne hesnl
        refine ⟨⟨dictInsert S.files file_path
            (build_front_matter (dictInsert (dictInsert (parse_front_matter fm)
                (str "typora-root-url") r) (str "typora-copy-images-to")
                (r ++ str ".assets/" ++ List.take 1 es ++ '/' :: es)) ++
              '\n' :: '\n' :: rem),
          dictInsert S.index es frel, S.assets⟩, true, es, frel, ?_,
          fun fresh' => ?_, ?_⟩
        · rw [index_or_update_file, if_neg (by simp), if_neg (by simp [hfile]),
            if_neg (by simp [hin]), if_neg (by simp [hmd])]
          simp only [add_front_matter_to_file, hfile, has_front_matter_of_get_existing hex,
            hr, hex, hser, if_true, update_index, hfrel, copy_to_if_eq]
          rw [if_neg hurl]
        · have h2 := second_call_noop workspace_path file_path
            ⟨dictInsert S.files file_path
                (build_front_matter (dictInsert (dictInsert (parse_front_matter fm)
                    (str "typora-root-url") r) (str "typora-copy-images-to")
                    (r ++ str ".assets/" ++ List.take 1 es ++ '/' :: es)) ++
                  '\n' :: '\n' :: rem),
              dictInsert S.index es frel, S.assets⟩ fresh'
            (dictInsert (dictInsert (parse_front_matter fm) (str "typora-root-url") r)
              (str "typora-copy-images-to")
              (r ++ str ".assets/" ++ List.take 1 es ++ '/' :: es))
            rem es r frel (dictGet_insert_self _ _ _) hin hmd hr hfrel
            hnd2 hcl2 hmk2 (dictInsert_ne_nil _ _ _)
            (by rw [dictGet_insert_ne _ _ _ _ (by decide),
                  dictGet_insert_ne _ _ _ _ (by decide)]
                exact hesget)
            hesne hess
            (by rw [dictGet_insert_ne _ _ _ _ (by decide)]
                exact dictGet_insert_self _ _ _)
            (dictGet_insert_self _ _ _)
          rw [h2]
          simp only [dictInsert_idem]
        · exact filter_key_dictInsert S.index es frel hnd
    | none =>
      have hcl1 : cleanFields (dictInsert (parse_front_matter fm) (str "serial") fresh) :=
        cleanFields_insert (parse_fields_clean fm)
          (cleanField_mk (by decide) hf1 (by decide) (by decide) hf3)
      have hnd1 :
          ((dictInsert (parse_front_matter fm) (str "serial") fresh).map Prod.fst).Nodup :=
        nodup_keys_dictInsert _ _ (parse_fields_nodup fm)
      have hmf1 : ∀ kv ∈ dictInsert (parse_front_matter fm) (str "serial") fresh,
          ¬ MARKER <+: kv.1 := markerFree_insert _ hmf (by decide)
      obtain ⟨⟨hnd2, hcl2⟩, hmk2⟩ :=
        urls_insert_shape _ r fresh hnd1 hcl1 hmf1 hrc hf1 hf2 hf3
      refine ⟨⟨dictInsert S.files file_path
          (build_front_matter (dictInsert (dictInsert (dictInsert (parse_front_matter fm)
              (str "serial") fresh) (str "typora-root-url") r) (str "typora-copy-images-to")
              (r ++ str ".assets/" ++ List.take 1 fresh ++ '/' :: fresh)) ++
            '\n' :: '\n' :: rem),
        dictInsert S.index fresh frel, S.assets⟩, true, fresh, frel, ?_,
        fun fresh' => ?_, ?_⟩
      · rw [index_or_update_file, if_neg (by simp), if_neg (by simp [hfile]),
          if_neg (by simp [hin]), if_neg (by simp [hmd])]
        simp only [add_front_matter_to_file, hfile, has_front_matter_of_get_existing hex,
          hr, hex, hser, if_true, update_index, hfrel, copy_to_if_eq]
      · have h2 := second_call_noop workspace_path file_path
          ⟨dictInsert S.files file_path
              (build_front_matter (dictInsert (dictInsert (dictInsert (parse_front_matter fm)
                  (str "serial") fresh) (str "typora-root-url") r)
                  (str "typora-copy-images-to")
                  (r ++ str ".assets/" ++ List.take 1 fresh ++ '/' :: fresh)) ++
                '\n' :: '\n' :: rem),
            dictInsert S.index fresh frel, S.assets⟩ fresh'
          (dictInsert (dictInsert (dictInsert (parse_front_matter fm) (str "serial") fresh)
            (str "typora-root-url") r) (str "typora-copy-images-to")
            (r ++ str ".assets/" ++ List.take 1 fresh ++ '/' :: fresh))
          rem fresh r frel (dictGet_insert_self _ _ _) hin hmd hr hfrel
          hnd2 hcl2 hmk2 (dictInsert_ne_nil _ _ _)
          (by rw [dictGet_insert_ne _ _ _ _ (by decide),
                dictGet_insert_ne _ _ _ _ (by decide)]
              exact dictGet_insert_self _ _ _)
          hf2 hf1
          (by rw [dictGet_insert_ne _ _ _ _ (by decide)]
              exact dictGet_insert_self _ _ _)
          (dictGet_insert_self _ _ _)
        rw [h2]
        simp only [dictInsert_idem]
      · exact filter_key_dictInsert S.index fresh frel hnd

theorem C5_witness :
    ∃ S1 m1 s frel,
      index_or_update_file (str "/w") (str "/w/y.md") true
        ⟨[(str "/w/y.md", str "hello")], [], []⟩ (str "tfreshse") = .ok (S1, m1) ∧
      (∀ fresh', index_or_update_file (str "/w") (str "/w/y.md") true S1 fresh' =
        .ok (S1, false)) ∧
      S1.index.filter (fun kv => kv.1 = s) = [(s, frel)] :=
  C5_created_path_idempotent (str "/w") (str "/w/y.md") (str "hello")
    ⟨[(str "/w/y.md", str "hello")], [], []⟩ (str "tfreshse")
    (by decide) (by decide) (by decide) (by decide) (by decide)
    (Or.inl (by decide)) (by decide) (by decide) (by decide)
